import Mathlib

/-!
The package flagenvfile: flag / environment / file precedence.

A shallow embedding of `flagenvfile.go` and of the parts of the Go standard
library it calls (`strings`, `unicode`, `unicode/utf8`, `time.ParseDuration`),
followed by the properties of the resolver.

Modelling conventions

* A Go string is its sequence of bytes, `List Nat`; string literals of the
  source are written `str "..."`, their UTF-8 encoding.
* A function that can panic, or that returns `(T, error)`, returns
  `Except GoError T`.
* Everything the package reads from outside itself (process environment, file
  system, the global flag registry, the Unicode case table, the float64
  arithmetic of `time.ParseDuration`) is a field of `Runtime`.
* `*FlagEnv` receivers that are mutated return the new `FlagEnv`.
* A `*flag.FlagSet` can be nil; a method called on it then panics with the
  nil-pointer error of the runtime.
* The lines written by `logFileError` go to the standard logger and influence
  no returned value; they are not part of the model.
-/

namespace FlagEnvFile

/-! ## Go strings and `unicode/utf8` -/

/-- A Go string, as its bytes. -/
abbrev GoString := List Nat

/-- The rune `utf8.RuneError`, U+FFFD. -/
def RuneError : Nat := 0xFFFD

/-- The encoding written by `utf8.AppendRune` (and `Builder.WriteRune`): one to
four bytes, a surrogate or a value above `MaxRune` being written as
`RuneError`.  Masks and shifts are written as `%`, `/` and `*`. -/
def encodeRune (r : Nat) : GoString :=
  if r ≤ 0x7F then [r]
  else if r ≤ 0x7FF then [0xC0 + r / 64, 0x80 + r % 64]
  else if 0x10FFFF < r ∨ (0xD800 ≤ r ∧ r ≤ 0xDFFF) then [0xEF, 0xBF, 0xBD]
  else if r ≤ 0xFFFF then [0xE0 + r / 4096, 0x80 + r / 64 % 64, 0x80 + r % 64]
  else [0xF0 + r / 262144, 0x80 + r / 4096 % 64, 0x80 + r / 64 % 64, 0x80 + r % 64]

/-- A string literal of the source, as the bytes of its UTF-8 encoding. -/
def str (s : String) : GoString :=
  s.toList.flatMap (fun c => encodeRune c.toNat)

/-- The table `first` of `unicode/utf8` together with `acceptRanges`: for a
leading byte of a multi-byte sequence, the length of the sequence and the
range accepted for its second byte; `none` for the bytes marked invalid. -/
def first (s0 : Nat) : Option (Nat × Nat × Nat) :=
  if 0xC2 ≤ s0 ∧ s0 ≤ 0xDF then some (2, 0x80, 0xBF)
  else if s0 = 0xE0 then some (3, 0xA0, 0xBF)
  else if 0xE1 ≤ s0 ∧ s0 ≤ 0xEC then some (3, 0x80, 0xBF)
  else if s0 = 0xED then some (3, 0x80, 0x9F)
  else if 0xEE ≤ s0 ∧ s0 ≤ 0xEF then some (3, 0x80, 0xBF)
  else if s0 = 0xF0 then some (4, 0x90, 0xBF)
  else if 0xF1 ≤ s0 ∧ s0 ≤ 0xF3 then some (4, 0x80, 0xBF)
  else if s0 = 0xF4 then some (4, 0x80, 0x8F)
  else none

/-- The function `utf8.DecodeRuneInString`: the first rune of `s` and its width
in bytes; `(RuneError, 1)` for an encoding that is invalid or cut short. -/
def DecodeRuneInString (s : GoString) : Nat × Nat :=
  let n := s.length
  if n < 1 then (RuneError, 0) else
  let s0 := s.getD 0 0
  if s0 < 0x80 then (s0, 1) else
  match first s0 with
  | none => (RuneError, 1)
  | some (sz, lo, hi) =>
    if n < sz then (RuneError, 1) else
    let s1 := s.getD 1 0
    if s1 < lo ∨ hi < s1 then (RuneError, 1) else
    if sz ≤ 2 then (s0 % 32 * 64 + s1 % 64, 2) else
    let s2 := s.getD 2 0
    if s2 < 0x80 ∨ 0xBF < s2 then (RuneError, 1) else
    if sz ≤ 3 then (s0 % 16 * 4096 + s1 % 64 * 64 + s2 % 64, 3) else
    let s3 := s.getD 3 0
    if s3 < 0x80 ∨ 0xBF < s3 then (RuneError, 1) else
    (s0 % 8 * 262144 + s1 % 64 * 4096 + s2 % 64 * 64 + s3 % 64, 4)

/-- The runes visited by `for _, c := range s`.  The first argument counts the
bytes still to be passed over because they belong to the rune decoded last. -/
def rangeRunes : Nat → GoString → List Nat
  | _, [] => []
  | skip + 1, _ :: t => rangeRunes skip t
  | 0, b :: t =>
    (DecodeRuneInString (b :: t)).1 :: rangeRunes ((DecodeRuneInString (b :: t)).2 - 1) t

/-! ## `strings` and `unicode` -/

/-- The function `strings.Map` for a mapping that drops no rune: every rune
of `s` (an invalid byte counting as `RuneError`) is replaced by the encoding of
its image. -/
def Map (mapping : Nat → Nat) (s : GoString) : GoString :=
  (rangeRunes 0 s).flatMap (fun c => encodeRune (mapping c))

/-- The function `unicode.ToUpper`: ASCII is handled in place, any other rune
goes through the case table `unicode.To(unicode.UpperCase, r)`, here the
parameter `caseTable`. -/
def unicodeToUpper (caseTable : Nat → Nat) (r : Nat) : Nat :=
  if r ≤ 0x7F then
    if 0x61 ≤ r ∧ r ≤ 0x7A then r - 0x20 else r
  else caseTable r

/-- The function `strings.ToUpper`. -/
def ToUpper (caseTable : Nat → Nat) (s : GoString) : GoString :=
  let isASCII := s.all (fun c => decide (c < 0x80))
  let hasLower := s.any (fun c => decide (0x61 ≤ c ∧ c ≤ 0x7A))
  if isASCII then
    if !hasLower then s
    else s.map (fun c => if 0x61 ≤ c ∧ c ≤ 0x7A then c - 0x20 else c)
  else Map (unicodeToUpper caseTable) s

/-- The function `strings.HasSuffix`. -/
def HasSuffix (s suffix : GoString) : Bool :=
  decide (suffix.length ≤ s.length) && s.drop (s.length - suffix.length) == suffix

/-- The helper `trimLeftASCII` of `strings`: drops leading bytes of the set. -/
def trimLeftASCII : GoString → GoString → GoString
  | [], _ => []
  | c :: t, cutset => if cutset.contains c then trimLeftASCII t cutset else c :: t

/-- The helper `trimRightASCII` of `strings`: drops trailing bytes of the set. -/
def trimRightASCII (s cutset : GoString) : GoString :=
  (trimLeftASCII s.reverse cutset).reverse

/-- The function `strings.Trim` for a cutset of ASCII bytes (the only kind the
package passes). -/
def Trim (s cutset : GoString) : GoString :=
  if s = [] ∨ cutset = [] then s
  else trimLeftASCII (trimRightASCII s cutset) cutset

/-! ## Errors, the flag registry and the runtime -/

/-- The error values that occur, as values returned or as values of a panic:
the one `get` builds with `fmt.Errorf`, the three failures of
`time.ParseDuration`, failures of the file system, failures returned by
caller-supplied options, and the runtime error of a nil pointer. -/
inductive GoError where
  /-- An error built by `fmt.Errorf` or `errors.New`, with its message. -/
  | errorf (msg : GoString)
  /-- The error `time: invalid duration "orig"`. -/
  | invalidDuration (orig : GoString)
  /-- The error `time: missing unit in duration "orig"`. -/
  | missingUnit (orig : GoString)
  /-- The error `time: unknown unit "u" in duration "orig"`. -/
  | unknownUnit (u orig : GoString)
  /-- An error of `os.Stat` or `os.ReadFile`. -/
  | fs (code : Nat)
  /-- An error returned by an option that is not one of the package. -/
  | other (code : Nat)
  /-- The runtime error `invalid memory address or nil pointer dereference`. -/
  | nilDereference
  deriving DecidableEq, Repr

deriving instance DecidableEq for Except

/-- A `flag.Flag`: its name, the current value as printed by `Value.String()`,
and the declared default `DefValue`. -/
structure Flag where
  Name : GoString
  Value : GoString
  DefValue : GoString
  deriving DecidableEq, Repr

/-- A `*flag.FlagSet`, as the package holds and receives it: the nil pointer,
or a registry reduced to the flags it has registered (`formal`). -/
inductive FlagSet where
  | nil
  | registry (formal : List Flag)
  deriving DecidableEq, Repr

/-- The method `(*flag.FlagSet).Lookup`, which reads `f.formal[name]`: on a nil
receiver the nil-pointer panic of the runtime, otherwise the flag registered
under `name`, or `none` (Go: `nil`). -/
def FlagSet.Lookup : FlagSet → GoString → Except GoError (Option Flag)
  | .nil, _ => .error .nilDereference
  | .registry formal, name => .ok (formal.find? (fun fl => fl.Name == name))

/-- What the package consumes from the Go runtime and the operating system. -/
structure Runtime where
  /-- The function `os.Getenv`; the empty string for an unset variable. -/
  Getenv : GoString → GoString
  /-- The call `os.Stat(filename)` followed by `Size()`. -/
  StatSize : GoString → Except GoError Int
  /-- The function `os.ReadFile`. -/
  ReadFile : GoString → Except GoError GoString
  /-- The global registry `flag.CommandLine`. -/
  CommandLine : FlagSet
  /-- The case table `unicode.To(unicode.UpperCase, r)` for runes above ASCII. -/
  caseTable : Nat → Nat
  /-- The float64 expression `uint64(float64(f) * (float64(unit) / scale))` of
  `time.ParseDuration`, where `scale` is ten to the power `digits`. -/
  fracNanos : (f digits unit : Nat) → Nat

/-! ## `time.ParseDuration` -/

/-- The helper `leadingInt` of package `time`, started with accumulator `x`:
the leading digits of `s` as a number and the rest of `s`; `none` on
overflow. -/
def leadingInt : GoString → Nat → Option (Nat × GoString)
  | [], x => some (x, [])
  | c :: t, x =>
    if c < 0x30 ∨ 0x39 < c then some (x, c :: t)
    else if x > 2 ^ 63 / 10 then none
    else if x * 10 + c - 0x30 > 2 ^ 63 then none
    else leadingInt t (x * 10 + c - 0x30)

/-- The helper `leadingFraction` of package `time`, started with accumulator
`x`, `digits` digits taken and the flag `overflow`: the digits as a number, how
many of them were taken (the scale is ten to that power) and the rest. -/
def leadingFraction : GoString → Nat → Nat → Bool → Nat × Nat × GoString
  | [], x, digits, _ => (x, digits, [])
  | c :: t, x, digits, overflow =>
    if c < 0x30 ∨ 0x39 < c then (x, digits, c :: t)
    else if overflow then leadingFraction t x digits true
    else if x > (2 ^ 63 - 1) / 10 then leadingFraction t x digits true
    else if x * 10 + c - 0x30 > 2 ^ 63 then leadingFraction t x digits true
    else leadingFraction t (x * 10 + c - 0x30) (digits + 1) false

/-- The table `unitMap` of package `time`, in nanoseconds. -/
def unitMap (u : GoString) : Option Nat :=
  if u = str "ns" then some 1
  else if u = str "us" then some 1000
  else if u = [0xC2, 0xB5, 0x73] then some 1000
  else if u = [0xCE, 0xBC, 0x73] then some 1000
  else if u = str "ms" then some 1000000
  else if u = str "s" then some 1000000000
  else if u = str "m" then some 60000000000
  else if u = str "h" then some 3600000000000
  else none

/-- The unit scan of `time.ParseDuration`: the bytes of `s` before the first
period or digit, and the rest. -/
def spanUnit : GoString → GoString × GoString
  | [] => ([], [])
  | c :: t =>
    if c = 0x2E ∨ (0x30 ≤ c ∧ c ≤ 0x39) then ([], c :: t)
    else ((c :: (spanUnit t).1), (spanUnit t).2)

/-- The main loop `for s != ""` of `time.ParseDuration`, with the running total
`d` (a uint64).  Every round consumes at least one byte, so a first argument of
`len(s)` rounds is never exhausted. -/
def durationLoop (rt : Runtime) (orig : GoString) : Nat → GoString → Nat → Except GoError Nat
  | _, [], d => .ok d
  | 0, _ :: _, _ => .error (.invalidDuration orig)
  | rounds + 1, c :: t, d =>
    if !(c = 0x2E ∨ (0x30 ≤ c ∧ c ≤ 0x39)) then .error (.invalidDuration orig) else
    match leadingInt (c :: t) 0 with
    | none => .error (.invalidDuration orig)
    | some (v, s1) =>
      let pre := decide ((c :: t).length ≠ s1.length)
      let fr : Nat × Nat × GoString × Bool :=
        match s1 with
        | 0x2E :: s2 =>
          ((leadingFraction s2 0 0 false).1, (leadingFraction s2 0 0 false).2.1,
            (leadingFraction s2 0 0 false).2.2,
            decide (s2.length ≠ (leadingFraction s2 0 0 false).2.2.length))
        | _ => (0, 0, s1, false)
      if !pre && !fr.2.2.2 then .error (.invalidDuration orig) else
      let u := (spanUnit fr.2.2.1).1
      if u = [] then .error (.missingUnit orig) else
      match unitMap u with
      | none => .error (.unknownUnit u orig)
      | some unit =>
        if v > 2 ^ 63 / unit then .error (.invalidDuration orig) else
        let v1 := if fr.1 > 0 then (v * unit + rt.fracNanos fr.1 fr.2.1 unit) % 2 ^ 64 else v * unit
        if fr.1 > 0 ∧ v1 > 2 ^ 63 then .error (.invalidDuration orig) else
        let d1 := (d + v1) % 2 ^ 64
        if d1 > 2 ^ 63 then .error (.invalidDuration orig) else
        durationLoop rt orig rounds (spanUnit fr.2.2.1).2 d1

/-- The function `time.ParseDuration`; a `time.Duration` is its count of
nanoseconds. -/
def ParseDuration (rt : Runtime) (s : GoString) : Except GoError Int :=
  let neg := decide (s.head? = some 0x2D)
  let s1 := if s.head? = some 0x2D ∨ s.head? = some 0x2B then s.tail else s
  if s1 = str "0" then .ok 0
  else if s1 = [] then .error (.invalidDuration s)
  else
    match durationLoop rt s s1.length s1 0 with
    | .error e => .error e
    | .ok d =>
      if neg then .ok (-(d : Int))
      else if d > 2 ^ 63 - 1 then .error (.invalidDuration s)
      else .ok (d : Int)

/-! ## The package -/

/-- The struct `FlagEnv`. -/
structure FlagEnv where
  flagset : FlagSet
  envPrefix : GoString
  fileSuffix : GoString
  deriving DecidableEq, Repr

/-- The type `Option` of the package, `func(*FlagEnv) error`: the resolver as
the call leaves it, and the error returned (`none` for `nil`). -/
abbrev FlagOption := FlagEnv → FlagEnv × Option GoError

/-- The method `(*FlagEnv).SetEnvPrefix`. -/
def FlagEnv.SetEnvPrefix (rt : Runtime) (fe : FlagEnv) (pfx : GoString) : FlagEnv :=
  let pfx1 := if !HasSuffix pfx (str "_") then pfx ++ str "_" else pfx
  { fe with envPrefix := ToUpper rt.caseTable pfx1 }

/-- The method `(*FlagEnv).BindFlagset`, which always returns a nil error. -/
def FlagEnv.BindFlagset (fe : FlagEnv) (flagset : FlagSet) : FlagEnv × Option GoError :=
  ({ fe with flagset := flagset }, none)

/-- The option `WithFlagSet`. -/
def WithFlagSet (f : FlagSet) : FlagOption :=
  fun fe => ({ fe with flagset := f }, none)

/-- The option `WithPrefix`. -/
def WithPrefix (rt : Runtime) (name : GoString) : FlagOption :=
  fun fe => (fe.SetEnvPrefix rt name, none)

/-- The loop of `New` over the options still to apply; a `nil` option is
`none`. -/
def applyOptions : List (Option FlagOption) → FlagEnv → Except GoError FlagEnv
  | [], fe => .ok fe
  | none :: rest, fe => applyOptions rest fe
  | some opt :: rest, fe =>
    match (opt fe).2 with
    | some err => .error err
    | none => applyOptions rest (opt fe).1

/-- The constructor `New`: `.error err` stands for `(nil, err)`. -/
def New (rt : Runtime) (options : List (Option FlagOption)) : Except GoError FlagEnv :=
  applyOptions options { fileSuffix := str "_FILE", flagset := rt.CommandLine, envPrefix := [] }

/-- The function `readFile`. -/
def readFile (rt : Runtime) (filename : GoString) : GoString :=
  match rt.StatSize filename with
  | .error _ => []
  | .ok size =>
    if size > 0 then
      match rt.ReadFile filename with
      | .error _ => []
      | .ok data => Trim data (str " \t\r\n")
    else []

/-- The method `(*FlagEnv).asEnvKey`. -/
def FlagEnv.asEnvKey (rt : Runtime) (fe : FlagEnv) (name : GoString) : GoString :=
  fe.envPrefix ++ ToUpper rt.caseTable name

/-- The method `(*FlagEnv).asEnvFileKey`. -/
def FlagEnv.asEnvFileKey (rt : Runtime) (fe : FlagEnv) (name : GoString) : GoString :=
  fe.asEnvKey rt name ++ str "_FILE"

/-- The method `(*FlagEnv).getEnvFileRaw`: the environment variable, then the
file. -/
def FlagEnv.getEnvFileRaw (rt : Runtime) (fe : FlagEnv) (name : GoString) : GoString :=
  let v := rt.Getenv (fe.asEnvKey rt name)
  if v = [] then
    let filename := rt.Getenv (fe.asEnvFileKey rt name)
    if filename ≠ [] then readFile rt filename else v
  else v

/-- The method `(*FlagEnv).get`; `.error` is the panic, that of `Lookup` on a
nil registry or the one `get` raises itself. -/
def FlagEnv.get (rt : Runtime) (fe : FlagEnv) (name : GoString) :
    Except GoError (GoString × GoString) :=
  match fe.flagset.Lookup name with
  | .error e => .error e
  | .ok (some flag) =>
    if flag.Value ≠ [] ∧ flag.Value ≠ flag.DefValue then .ok (flag.Value, flag.DefValue)
    else .ok (fe.getEnvFileRaw rt name, flag.DefValue)
  | .ok none => .error (.errorf (str "flag named " ++ name ++ str " does not exist"))

/-- The method `(*FlagEnv).GetString`. -/
def FlagEnv.GetString (rt : Runtime) (fe : FlagEnv) (name : GoString) : Except GoError GoString :=
  match fe.get rt name with
  | .error e => .error e
  | .ok (v, dv) => if v ≠ [] then .ok v else .ok dv

/-- The method `(*FlagEnv).GetBool`. -/
def FlagEnv.GetBool (rt : Runtime) (fe : FlagEnv) (name : GoString) : Except GoError Bool :=
  match fe.get rt name with
  | .error e => .error e
  | .ok (v, dv) => if v ≠ [] then .ok (v == str "true") else .ok (dv == str "true")

/-- The method `(*FlagEnv).GetDuration`; a failed parse panics with the error
of `time.ParseDuration`. -/
def FlagEnv.GetDuration (rt : Runtime) (fe : FlagEnv) (name : GoString) : Except GoError Int :=
  match fe.get rt name with
  | .error e => .error e
  | .ok (v, dv) => ParseDuration rt (if v = [] then dv else v)

/-! ## An example deployment, used to instantiate the theorems -/

/-- A registry after parsing `-host=example.org -name=`: `host` was set on the
command line, `name` was set to the empty string, the others were left alone. -/
def demoFlagSet : FlagSet :=
  .registry
    [⟨str "port", str "8080", str "8080"⟩,
      ⟨str "host", str "example.org", str "localhost"⟩,
      ⟨str "token", [], []⟩,
      ⟨str "name", [], str "x"⟩,
      ⟨str "timeout", str "30s", str "30s"⟩,
      ⟨str "verbose", str "false", str "false"⟩]

/-- The process environment of the example. -/
def demoGetenv (k : GoString) : GoString :=
  if k = str "API_HOST" then str "env.example.org"
  else if k = str "API_HOST_FILE" then str "/run/secrets/host"
  else if k = str "API_PORT" then str " 7070 "
  else if k = str "API_PORT_FILE" then str "/run/secrets/host"
  else if k = str "API_TOKEN_FILE" then str "/run/secrets/token"
  else if k = str "API_NAME" then str "fromenv"
  else if k = str "API_VERBOSE_FILE" then str "/run/secrets/empty"
  else []

/-- The files of the example: two secrets and a zero-byte file. -/
def demoFiles (path : GoString) : Option GoString :=
  if path = str "/run/secrets/host" then some (str "file.example.org\n")
  else if path = str "/run/secrets/token" then some (str "  hello \n")
  else if path = str "/run/secrets/empty" then some []
  else none

/-- A fragment of the Unicode case table: the Latin-1 letters U+00E0 to U+00FE
(U+00F7, the division sign, apart) lie 32 above their upper-case forms. -/
def latin1CaseTable (r : Nat) : Nat :=
  if 0xE0 ≤ r ∧ r ≤ 0xFE ∧ r ≠ 0xF7 then r - 0x20 else r

/-- The runtime of the example. -/
def demoRuntime : Runtime where
  Getenv := demoGetenv
  StatSize := fun path =>
    match demoFiles path with
    | some data => .ok (data.length : Int)
    | none => .error (.fs 2)
  ReadFile := fun path =>
    match demoFiles path with
    | some data => .ok data
    | none => .error (.fs 2)
  CommandLine := demoFlagSet
  caseTable := latin1CaseTable
  fracNanos := fun f digits unit => f * unit / 10 ^ digits

/-- The resolver of the example: the registry above under the stored prefix
`API_`. -/
def demoFlagEnv : FlagEnv :=
  { flagset := demoFlagSet, envPrefix := str "API_", fileSuffix := str "_FILE" }

/-- The runtime of the example with one more environment variable set. -/
def demoRuntimeWith (key value : GoString) : Runtime :=
  { demoRuntime with Getenv := fun k => if k = key then value else demoGetenv k }

/-- The runtime of the example with the file at `path` holding `data`. -/
def demoRuntimeFile (path data : GoString) : Runtime :=
  { demoRuntime with
    StatSize := fun q => if q = path then .ok (data.length : Int) else demoRuntime.StatSize q
    ReadFile := fun q => if q = path then .ok data else demoRuntime.ReadFile q }

/-- The bytes of the cutset of `readFile`: space, tab, carriage return and
newline. -/
def isCutsetByte (b : Nat) : Prop :=
  b = 0x20 ∨ b = 0x09 ∨ b = 0x0D ∨ b = 0x0A

instance (b : Nat) : Decidable (isCutsetByte b) :=
  inferInstanceAs (Decidable (b = 0x20 ∨ b = 0x09 ∨ b = 0x0D ∨ b = 0x0A))

/-- A rune that `utf8.AppendRune` writes as itself: at most `unicode.MaxRune`
and no surrogate half. -/
def ValidRune (r : Nat) : Prop :=
  r ≤ 0x10FFFF ∧ ¬ (0xD800 ≤ r ∧ r ≤ 0xDFFF)

/-- What is assumed of the Unicode case table where a property needs it: the
image of a valid rune above ASCII is a valid rune, and is upper case already
(`unicode.ToUpper` maps it to itself). -/
def UpperCaseTable (caseTable : Nat → Nat) : Prop :=
  ∀ r, 0x7F < r → ValidRune r →
    ValidRune (caseTable r) ∧ unicodeToUpper caseTable (caseTable r) = caseTable r

/-- The prefix ends in exactly one separator: its last byte is `_` and the byte
before it, if there is one, is not. -/
def endsInOneSeparator (s : GoString) : Bool :=
  s.getLast? == some 0x5F && s.dropLast.getLast? != some 0x5F

/-- One of the options the package itself provides, or `nil`. -/
def providedOption (rt : Runtime) (o : Option FlagOption) : Prop :=
  o = none ∨ (∃ f, o = some (WithFlagSet f)) ∨ ∃ p, o = some (WithPrefix rt p)

/-- Construction in the words of the specification: starting from `fe0` the
options are applied in the order given, each to the state the ones before it
left; the first failure aborts and is the result. -/
def applyInOrder (fe0 : FlagEnv) (options : List (Option FlagOption)) :
    Except GoError FlagEnv :=
  options.foldl
    (fun acc o =>
      match acc, o with
      | .error e, _ => .error e
      | .ok fe, none => .ok fe
      | .ok fe, some opt =>
        match (opt fe).2 with
        | some err => .error err
        | none => .ok (opt fe).1)
    (.ok fe0)

/-- A call made on a resolver after its construction: one of the two setters,
one of the four accessors, or one of the two provided options applied to
it. -/
inductive Operation where
  | setEnvPrefix (p : GoString)
  | bindFlagset (f : FlagSet)
  | get (name : GoString)
  | getString (name : GoString)
  | getBool (name : GoString)
  | getDuration (name : GoString)
  | withFlagSet (f : FlagSet)
  | withPrefix (p : GoString)

/-- The resolver as the call leaves it.  The accessors `get`, `GetString`,
`GetBool` and `GetDuration` assign to no field of their receiver, whether they
return or panic. -/
def Operation.after (rt : Runtime) : Operation → FlagEnv → FlagEnv
  | .setEnvPrefix p, fe => fe.SetEnvPrefix rt p
  | .bindFlagset f, fe => (fe.BindFlagset f).1
  | .get _, fe => fe
  | .getString _, fe => fe
  | .getBool _, fe => fe
  | .getDuration _, fe => fe
  | .withFlagSet f, fe => (WithFlagSet f fe).1
  | .withPrefix p, fe => (WithPrefix rt p fe).1

/-! ## Precedence -/

/-- For a registered flag `get` returns, and its second result is the declared
default. -/
theorem get_registered (rt : Runtime) (fe : FlagEnv) (name : GoString) (flag : Flag)
    (hreg : fe.flagset.Lookup name = .ok (some flag)) :
    ∃ v, fe.get rt name = .ok (v, flag.DefValue) := by
  by_cases hc : flag.Value ≠ [] ∧ flag.Value ≠ flag.DefValue
  · exact ⟨flag.Value, by simp only [FlagEnv.get, hreg, if_pos hc]⟩
  · exact ⟨fe.getEnvFileRaw rt name, by simp only [FlagEnv.get, hreg, if_neg hc]⟩

/-- C1: a registered flag whose current value is non-empty and differs from its
default is returned as it is by `get` (with the default) and by `GetString`,
whatever the environment and the files hold. -/
theorem get_command_line_wins (rt : Runtime) (fe : FlagEnv) (name : GoString) (flag : Flag)
    (hreg : fe.flagset.Lookup name = .ok (some flag))
    (hne : flag.Value ≠ []) (hdiff : flag.Value ≠ flag.DefValue) :
    fe.get rt name = .ok (flag.Value, flag.DefValue) ∧
      fe.GetString rt name = .ok flag.Value := by
  have hget : fe.get rt name = .ok (flag.Value, flag.DefValue) := by
    simp [FlagEnv.get, hreg, hne, hdiff]
  refine ⟨hget, ?_⟩
  simp [FlagEnv.GetString, hget, hne]

/-- In the example `host` is set on the command line while both `API_HOST` and
`API_HOST_FILE` are set: the command-line value is returned. -/
theorem get_command_line_wins_witness :
    demoGetenv (str "API_HOST") = str "env.example.org" ∧
      demoGetenv (str "API_HOST_FILE") = str "/run/secrets/host" ∧
      demoFlagEnv.get demoRuntime (str "host") = .ok (str "example.org", str "localhost") ∧
      demoFlagEnv.GetString demoRuntime (str "host") = .ok (str "example.org") :=
  ⟨by decide, by decide,
    get_command_line_wins demoRuntime demoFlagEnv (str "host")
      ⟨str "host", str "example.org", str "localhost"⟩ (by decide) (by decide) (by decide)⟩

/-- C2: for a registered flag whose value is empty or equal to its default, a
non-empty environment variable `envPrefix + upper(name)` is returned by
`GetString` byte for byte, and so it is under every other runtime that holds
the same variable, whatever its `_FILE` variable and its files are. -/
theorem GetString_env_fallback (rt : Runtime) (fe : FlagEnv) (name : GoString) (flag : Flag)
    (v : GoString)
    (hreg : fe.flagset.Lookup name = .ok (some flag))
    (hunset : flag.Value = [] ∨ flag.Value = flag.DefValue)
    (hv : v ≠ [])
    (henv : rt.Getenv (fe.asEnvKey rt name) = v) :
    fe.GetString rt name = .ok v ∧
      ∀ rt2 : Runtime, rt2.caseTable = rt.caseTable →
        rt2.Getenv (fe.asEnvKey rt name) = v → fe.GetString rt2 name = .ok v := by
  have key : ∀ rt2 : Runtime, rt2.Getenv (fe.asEnvKey rt2 name) = v →
      fe.GetString rt2 name = .ok v := by
    intro rt2 h2
    have hcond : ¬ (flag.Value ≠ [] ∧ flag.Value ≠ flag.DefValue) := by
      rcases hunset with h | h
      · exact fun hc => hc.1 h
      · exact fun hc => hc.2 h
    have hraw : fe.getEnvFileRaw rt2 name = v := by
      simp [FlagEnv.getEnvFileRaw, h2, hv]
    have hget : fe.get rt2 name = .ok (v, flag.DefValue) := by
      simp only [FlagEnv.get, hreg, if_neg hcond, hraw]
    simp [FlagEnv.GetString, hget, hv]
  refine ⟨key rt henv, ?_⟩
  intro rt2 htab h2
  apply key rt2
  have hk : fe.asEnvKey rt2 name = fe.asEnvKey rt name := by
    simp [FlagEnv.asEnvKey, htab]
  rw [hk]; exact h2

/-- In the example `port` was passed with its default `8080` and `API_PORT` is
`" 7070 "`: the variable is returned with its blanks, although `API_PORT_FILE`
names a readable file. -/
theorem GetString_env_fallback_witness :
    demoGetenv (str "API_PORT_FILE") = str "/run/secrets/host" ∧
      demoFlagEnv.GetString demoRuntime (str "port") = .ok (str " 7070 ") :=
  ⟨by decide,
    (GetString_env_fallback demoRuntime demoFlagEnv (str "port")
      ⟨str "port", str "8080", str "8080"⟩ (str " 7070 ")
      (by decide) (by decide) (by decide) (by decide)).1⟩

/-- C4: for a registered flag left at its default, with both the variable and
the `_FILE` variable empty, `GetString` returns the default, `GetBool` whether
the default is `true`, and `GetDuration` what `time.ParseDuration` makes of the
default. -/
theorem default_fallback (rt : Runtime) (fe : FlagEnv) (name : GoString) (flag : Flag)
    (hreg : fe.flagset.Lookup name = .ok (some flag))
    (hunset : flag.Value = flag.DefValue)
    (henv : rt.Getenv (fe.asEnvKey rt name) = [])
    (hfile : rt.Getenv (fe.asEnvFileKey rt name) = []) :
    fe.GetString rt name = .ok flag.DefValue ∧
      fe.GetBool rt name = .ok (flag.DefValue == str "true") ∧
      fe.GetDuration rt name = ParseDuration rt flag.DefValue := by
  have hraw : fe.getEnvFileRaw rt name = [] := by
    simp [FlagEnv.getEnvFileRaw, henv, hfile]
  have hget : fe.get rt name = .ok ([], flag.DefValue) := by
    simp [FlagEnv.get, hreg, hunset, hraw]
  refine ⟨?_, ?_, ?_⟩
  · simp [FlagEnv.GetString, hget]
  · simp [FlagEnv.GetBool, hget]
  · simp [FlagEnv.GetDuration, hget]

/-- In the example `timeout` is left at `30s` and neither `API_TIMEOUT` nor
`API_TIMEOUT_FILE` is set: the accessors return `30s`, `false` and thirty
seconds. -/
theorem default_fallback_witness :
    demoFlagEnv.GetString demoRuntime (str "timeout") = .ok (str "30s") ∧
      demoFlagEnv.GetBool demoRuntime (str "timeout") = .ok false ∧
      demoFlagEnv.GetDuration demoRuntime (str "timeout") = .ok 30000000000 := by
  have h := default_fallback demoRuntime demoFlagEnv (str "timeout")
    ⟨str "timeout", str "30s", str "30s"⟩ (by decide) (by decide) (by decide) (by decide)
  refine ⟨h.1, ?_, ?_⟩
  · rw [h.2.1]; decide
  · rw [h.2.2]; decide

/-- C5, as stated, fails: `name` was set to the empty string on the command
line, which differs from its default `x`, yet `GetString` returns the value of
`API_NAME` and not the empty string. -/
theorem command_line_empty_value_not_returned :
    demoFlagSet.Lookup (str "name") = .ok (some ⟨str "name", [], str "x"⟩) ∧
      ([] : GoString) ≠ str "x" ∧
      demoFlagEnv.GetString demoRuntime (str "name") = .ok (str "fromenv") ∧
      demoFlagEnv.GetString demoRuntime (str "name") ≠ .ok [] := by
  decide

/-- C5, amended: a registered flag whose command-line value is non-empty and
different from its default is returned by `GetString`, whatever the variables
`envPrefix + upper(name)` and `envPrefix + upper(name) + "_FILE"` hold. -/
theorem GetString_nonempty_command_line_wins (rt : Runtime) (fe : FlagEnv) (name : GoString)
    (flag : Flag)
    (hreg : fe.flagset.Lookup name = .ok (some flag))
    (hne : flag.Value ≠ []) (hdiff : flag.Value ≠ flag.DefValue) :
    fe.GetString rt name = .ok flag.Value := by
  simp [FlagEnv.GetString, FlagEnv.get, hreg, hne, hdiff]

/-- In the example `host` is set to `example.org` on the command line, and
`API_HOST` and `API_HOST_FILE` are both set. -/
theorem GetString_nonempty_command_line_wins_witness :
    demoRuntime.Getenv (demoFlagEnv.asEnvKey demoRuntime (str "host")) = str "env.example.org" ∧
      demoRuntime.Getenv (demoFlagEnv.asEnvFileKey demoRuntime (str "host"))
        = str "/run/secrets/host" ∧
      demoFlagEnv.GetString demoRuntime (str "host") = .ok (str "example.org") :=
  ⟨by decide, by decide,
    GetString_nonempty_command_line_wins demoRuntime demoFlagEnv (str "host")
      ⟨str "host", str "example.org", str "localhost"⟩ (by decide) (by decide) (by decide)⟩

/-- C6, as stated, fails: in the resolver `New(WithFlagSet(nil))` no flag `port`
is registered, yet `GetString`, `GetBool` and `GetDuration` panic with the
nil-pointer error of the runtime, which is not `flag named port does not
exist`. -/
theorem nil_registry_panic_names_no_flag :
    New demoRuntime [some (WithFlagSet .nil)]
        = .ok { flagset := .nil, envPrefix := [], fileSuffix := str "_FILE" } ∧
      FlagSet.nil.Lookup (str "port") = .error .nilDereference ∧
      ({ flagset := .nil, envPrefix := [], fileSuffix := str "_FILE" } : FlagEnv).GetString
          demoRuntime (str "port") = .error .nilDereference ∧
      ({ flagset := .nil, envPrefix := [], fileSuffix := str "_FILE" } : FlagEnv).GetBool
          demoRuntime (str "port") = .error .nilDereference ∧
      ({ flagset := .nil, envPrefix := [], fileSuffix := str "_FILE" } : FlagEnv).GetDuration
          demoRuntime (str "port") = .error .nilDereference ∧
      ({ flagset := .nil, envPrefix := [], fileSuffix := str "_FILE" } : FlagEnv).GetString
          demoRuntime (str "port")
        ≠ .error (.errorf (str "flag named port does not exist")) := by
  decide

/-- C6, amended: `get` panics exactly when the name is not registered in the
bound registry (a nil registry registers nothing); when the registry is not
nil and the name is not registered, the three accessors panic with the error
`flag named N does not exist`, under every runtime; when the registry is nil,
`get` and the three accessors panic with the nil-pointer error of the runtime;
and for a registered name `GetString` and `GetBool` return. -/
theorem unregistered_flag_panics (rt : Runtime) (fe : FlagEnv) (name : GoString) :
    ((∃ e, fe.get rt name = .error e) ↔
        ∀ flag, fe.flagset.Lookup name ≠ .ok (some flag)) ∧
      (fe.flagset ≠ .nil → (∀ flag, fe.flagset.Lookup name ≠ .ok (some flag)) →
        fe.GetString rt name
            = .error (.errorf (str "flag named " ++ name ++ str " does not exist")) ∧
          fe.GetBool rt name
            = .error (.errorf (str "flag named " ++ name ++ str " does not exist")) ∧
          fe.GetDuration rt name
            = .error (.errorf (str "flag named " ++ name ++ str " does not exist"))) ∧
      (fe.flagset = .nil →
        fe.get rt name = .error .nilDereference ∧
          fe.GetString rt name = .error .nilDereference ∧
          fe.GetBool rt name = .error .nilDereference ∧
          fe.GetDuration rt name = .error .nilDereference) ∧
      (∀ flag, fe.flagset.Lookup name = .ok (some flag) →
        (∃ s, fe.GetString rt name = .ok s) ∧ ∃ b, fe.GetBool rt name = .ok b) := by
  refine ⟨?_, ?_, ?_, ?_⟩
  · cases hl : fe.flagset.Lookup name with
    | error e => simp [FlagEnv.get, hl]
    | ok o =>
      cases o with
      | none => simp [FlagEnv.get, hl]
      | some flag =>
        simp only [FlagEnv.get, hl]
        split <;> simp
  · intro hnil hl
    have hnone : fe.flagset.Lookup name = .ok none := by
      cases hfs : fe.flagset with
      | nil => exact absurd hfs hnil
      | registry formal =>
        rw [hfs] at hl
        simp only [FlagSet.Lookup] at hl ⊢
        cases hf : formal.find? (fun fl => fl.Name == name) with
        | none => rfl
        | some flag => exact absurd (by rw [hf]) (hl flag)
    simp [FlagEnv.GetString, FlagEnv.GetBool, FlagEnv.GetDuration, FlagEnv.get, hnone]
  · intro hnil
    simp [FlagEnv.GetString, FlagEnv.GetBool, FlagEnv.GetDuration, FlagEnv.get, hnil,
      FlagSet.Lookup]
  · intro flag hl
    obtain ⟨v, hv⟩ := get_registered rt fe name flag hl
    simp only [FlagEnv.GetString, FlagEnv.GetBool, hv]
    constructor <;> (split <;> simp)

/-- In the example no flag `colour` is registered: the accessors panic with
`flag named colour does not exist`. -/
theorem unregistered_flag_panics_witness :
    demoFlagEnv.GetString demoRuntime (str "colour")
        = .error (.errorf (str "flag named colour does not exist")) ∧
      demoFlagEnv.GetBool demoRuntime (str "colour")
        = .error (.errorf (str "flag named colour does not exist")) ∧
      demoFlagEnv.GetDuration demoRuntime (str "colour")
        = .error (.errorf (str "flag named colour does not exist")) :=
  (unregistered_flag_panics demoRuntime demoFlagEnv (str "colour")).2.1 (by decide)
    (fun flag h => by
      have h2 : demoFlagSet.Lookup (str "colour") = .ok none := by decide
      have h3 : demoFlagEnv.flagset.Lookup (str "colour") = .ok none := h2
      rw [h3] at h
      exact Option.noConfusion (Except.ok.inj h))

/-! ## Files -/

/-- What `trimLeftASCII` drops is a run of bytes of the set. -/
theorem trimLeftASCII_split (s cutset : GoString) :
    ∃ pre, s = pre ++ trimLeftASCII s cutset ∧ ∀ b ∈ pre, cutset.contains b = true := by
  induction s with
  | nil => exact ⟨[], rfl, by simp⟩
  | cons c t ih =>
    by_cases hc : cutset.contains c = true
    · obtain ⟨pre, hpre, hall⟩ := ih
      refine ⟨c :: pre, ?_, ?_⟩
      · simp only [trimLeftASCII, hc, if_true, List.cons_append]
        exact congrArg (List.cons c) hpre
      · intro b hb
        rcases List.mem_cons.mp hb with rfl | hb
        · exact hc
        · exact hall b hb
    · have hc2 : cutset.contains c = false := by simpa using hc
      refine ⟨[], ?_, by simp⟩
      simp only [trimLeftASCII, hc2, Bool.false_eq_true, if_false, List.nil_append]

/-- What `trimLeftASCII` leaves does not start with a byte of the set. -/
theorem trimLeftASCII_head (s cutset : GoString) (b : Nat)
    (h : (trimLeftASCII s cutset).head? = some b) : cutset.contains b = false := by
  induction s with
  | nil => simp [trimLeftASCII] at h
  | cons c t ih =>
    by_cases hc : cutset.contains c = true
    · simp only [trimLeftASCII, hc, if_true] at h
      exact ih h
    · simp only [trimLeftASCII, hc] at h
      simp only [Bool.false_eq_true, if_false, List.head?_cons, Option.some.injEq] at h
      subst h
      simpa using hc

/-- What `trimRightASCII` drops is a run of bytes of the set. -/
theorem trimRightASCII_split (s cutset : GoString) :
    ∃ post, s = trimRightASCII s cutset ++ post ∧ ∀ b ∈ post, cutset.contains b = true := by
  obtain ⟨pre, hpre, hall⟩ := trimLeftASCII_split s.reverse cutset
  refine ⟨pre.reverse, ?_, ?_⟩
  · have h := congrArg List.reverse hpre
    simpa [trimRightASCII] using h
  · intro b hb
    exact hall b (List.mem_reverse.mp hb)

/-- What `trimRightASCII` leaves does not end with a byte of the set. -/
theorem trimRightASCII_last (s cutset : GoString) (b : Nat)
    (h : (trimRightASCII s cutset).getLast? = some b) : cutset.contains b = false := by
  apply trimLeftASCII_head s.reverse cutset b
  simpa [trimRightASCII] using h

/-- The bytes of the cutset of `readFile` are the four of `isCutsetByte`. -/
theorem contains_cutset (b : Nat) :
    (str " \t\r\n").contains b = true ↔ isCutsetByte b := by
  have h : str " \t\r\n" = [0x20, 0x09, 0x0D, 0x0A] := by decide
  rw [h]
  simp [isCutsetByte]

/-- The value `strings.Trim(data, " \t\r\n")` is `data` without a leading and a
trailing run of cutset bytes, and neither starts nor ends with one. -/
theorem Trim_spec (data : GoString) :
    (∃ pre post, data = pre ++ Trim data (str " \t\r\n") ++ post ∧
        (∀ b ∈ pre, isCutsetByte b) ∧ ∀ b ∈ post, isCutsetByte b) ∧
      (∀ b, (Trim data (str " \t\r\n")).head? = some b → ¬ isCutsetByte b) ∧
      ∀ b, (Trim data (str " \t\r\n")).getLast? = some b → ¬ isCutsetByte b := by
  have hcut : str " \t\r\n" ≠ [] := by decide
  by_cases hd : data = []
  · subst hd
    refine ⟨⟨[], [], by simp [Trim], by simp, by simp⟩, by simp [Trim], by simp [Trim]⟩
  · have hT : Trim data (str " \t\r\n")
        = trimLeftASCII (trimRightASCII data (str " \t\r\n")) (str " \t\r\n") := by
      simp [Trim, hd, hcut]
    obtain ⟨post, hpost, hpostall⟩ := trimRightASCII_split data (str " \t\r\n")
    obtain ⟨pre, hpre, hpreall⟩ :=
      trimLeftASCII_split (trimRightASCII data (str " \t\r\n")) (str " \t\r\n")
    rw [hT]
    refine ⟨⟨pre, post, ?_, ?_, ?_⟩, ?_, ?_⟩
    · rw [← hpre]; exact hpost
    · exact fun b hb => (contains_cutset b).mp (hpreall b hb)
    · exact fun b hb => (contains_cutset b).mp (hpostall b hb)
    · intro b hb hcb
      have := trimLeftASCII_head _ _ b hb
      rw [(contains_cutset b).mpr hcb] at this
      exact Bool.noConfusion this
    · intro b hb hcb
      have hlast : (trimRightASCII data (str " \t\r\n")).getLast? = some b := by
        rw [hpre, List.getLast?_append, hb]; rfl
      have := trimRightASCII_last _ _ b hlast
      rw [(contains_cutset b).mpr hcb] at this
      exact Bool.noConfusion this

/-- C3: for a registered flag whose value is empty or equal to its default,
with the variable `envPrefix + upper(name)` empty and the `_FILE` variable
naming a file of positive size that reads as `data`, the raw value returned by
`get` is `data` without a leading and a trailing run of spaces, tabs, carriage
returns and newlines, it neither starts nor ends with such a byte, and for the
contents `"  hello \n"` `GetString` returns `hello`. -/
theorem file_indirection_trimmed (rt : Runtime) (fe : FlagEnv) (name : GoString) (flag : Flag)
    (path data : GoString) (size : Int)
    (hreg : fe.flagset.Lookup name = .ok (some flag))
    (hunset : flag.Value = [] ∨ flag.Value = flag.DefValue)
    (henv : rt.Getenv (fe.asEnvKey rt name) = [])
    (hfile : rt.Getenv (fe.asEnvFileKey rt name) = path) (hpath : path ≠ [])
    (hstat : rt.StatSize path = .ok size) (hsize : 0 < size)
    (hread : rt.ReadFile path = .ok data) :
    ∃ raw, fe.get rt name = .ok (raw, flag.DefValue) ∧
      (∃ pre post, data = pre ++ raw ++ post ∧
        (∀ b ∈ pre, isCutsetByte b) ∧ ∀ b ∈ post, isCutsetByte b) ∧
      (∀ b, raw.head? = some b → ¬ isCutsetByte b) ∧
      (∀ b, raw.getLast? = some b → ¬ isCutsetByte b) ∧
      (data = str "  hello \n" → fe.GetString rt name = .ok (str "hello")) := by
  have hcond : ¬ (flag.Value ≠ [] ∧ flag.Value ≠ flag.DefValue) := by
    rcases hunset with h | h
    · exact fun hc => hc.1 h
    · exact fun hc => hc.2 h
  have hrf : readFile rt path = Trim data (str " \t\r\n") := by
    simp [readFile, hstat, hsize, hread]
  have hraw : fe.getEnvFileRaw rt name = Trim data (str " \t\r\n") := by
    simp [FlagEnv.getEnvFileRaw, henv, hfile, hpath, hrf]
  have hget : fe.get rt name = .ok (Trim data (str " \t\r\n"), flag.DefValue) := by
    simp only [FlagEnv.get, hreg, if_neg hcond, hraw]
  obtain ⟨h1, h2, h3⟩ := Trim_spec data
  refine ⟨_, hget, h1, h2, h3, ?_⟩
  intro hd
  have ht : Trim data (str " \t\r\n") = str "hello" := by rw [hd]; decide
  have hne : str "hello" ≠ [] := by decide
  simp [FlagEnv.GetString, hget, ht, hne]

/-- In the example `token` has no value, `API_TOKEN` is unset and
`API_TOKEN_FILE` names a file holding `"  hello \n"`: `GetString` returns
`hello`. -/
theorem file_indirection_trimmed_witness :
    demoFlagEnv.GetString demoRuntime (str "token") = .ok (str "hello") := by
  obtain ⟨_, _, _, _, _, h⟩ :=
    file_indirection_trimmed demoRuntime demoFlagEnv (str "token") ⟨str "token", [], []⟩
      (str "/run/secrets/token") (str "  hello \n") 9
      (by decide) (by decide) (by decide) (by decide) (by decide) (by decide) (by decide)
      (by decide)
  exact h rfl

/-- C7: when the stat fails, when the size is zero, or when the read fails,
`readFile` returns the empty string; and a registered flag at its default, with
the variable `envPrefix + upper(name)` empty and the `_FILE` variable naming
that file, is returned by `GetString` as its default, without a panic. -/
theorem file_errors_recoverable (rt : Runtime) (path : GoString)
    (hbad : (∃ e, rt.StatSize path = .error e) ∨ rt.StatSize path = .ok 0 ∨
      ∃ e, rt.ReadFile path = .error e) :
    readFile rt path = [] ∧
      ∀ (fe : FlagEnv) (name : GoString) (flag : Flag),
        fe.flagset.Lookup name = .ok (some flag) → flag.Value = flag.DefValue →
        rt.Getenv (fe.asEnvKey rt name) = [] → rt.Getenv (fe.asEnvFileKey rt name) = path →
        fe.GetString rt name = .ok flag.DefValue := by
  have hrf : readFile rt path = [] := by
    rcases hbad with ⟨e, he⟩ | h0 | ⟨e, he⟩
    · simp [readFile, he]
    · simp [readFile, h0]
    · simp only [readFile, he]
      split
      · rfl
      · split <;> rfl
  refine ⟨hrf, ?_⟩
  intro fe name flag hreg hunset henv hfile
  have hraw : fe.getEnvFileRaw rt name = [] := by
    simp [FlagEnv.getEnvFileRaw, henv, hfile, hrf]
  have hget : fe.get rt name = .ok ([], flag.DefValue) := by
    simp [FlagEnv.get, hreg, hunset, hraw]
  simp [FlagEnv.GetString, hget]

/-- In the example `API_VERBOSE_FILE` names a zero-byte file and `verbose` is
at its default `false`: the file reads as the empty string, exactly like the
missing file `/run/secrets/none`, and `GetString` returns `false`. -/
theorem file_errors_recoverable_witness :
    demoRuntime.StatSize (str "/run/secrets/empty") = .ok 0 ∧
      readFile demoRuntime (str "/run/secrets/empty") = [] ∧
      readFile demoRuntime (str "/run/secrets/none") = [] ∧
      demoFlagEnv.GetString demoRuntime (str "verbose") = .ok (str "false") :=
  ⟨by decide,
    (file_errors_recoverable demoRuntime (str "/run/secrets/empty")
      (Or.inr (Or.inl (by decide)))).1,
    by decide,
    (file_errors_recoverable demoRuntime (str "/run/secrets/empty")
      (Or.inr (Or.inl (by decide)))).2 demoFlagEnv (str "verbose")
      ⟨str "verbose", str "false", str "false"⟩ (by decide) (by decide) (by decide)
      (by decide)⟩

/-! ## Keys and construction -/

/-- Options that are `nil` or built by `WithFlagSet` never fail and leave the
stored prefix as it was. -/
theorem applyOptions_WithFlagSet (opts : List (Option FlagOption)) (fe : FlagEnv)
    (h : ∀ o ∈ opts, o = none ∨ ∃ f, o = some (WithFlagSet f)) :
    ∃ fe1, applyOptions opts fe = .ok fe1 ∧ fe1.envPrefix = fe.envPrefix ∧
      fe1.fileSuffix = fe.fileSuffix := by
  induction opts generalizing fe with
  | nil => exact ⟨fe, rfl, rfl, rfl⟩
  | cons o rest ih =>
    have hrest : ∀ o ∈ rest, o = none ∨ ∃ f, o = some (WithFlagSet f) :=
      fun o ho => h o (List.mem_cons_of_mem _ ho)
    rcases h o (List.mem_cons_self _ _) with rfl | ⟨f, rfl⟩
    · exact ih fe hrest
    · obtain ⟨fe1, h1, h2, h3⟩ := ih ({ fe with flagset := f }) hrest
      exact ⟨fe1, by simpa [applyOptions, WithFlagSet] using h1, h2, h3⟩

/-- C10: the environment key of `N` is `envPrefix ++ upper(N)`, the file key
is the environment key followed by the five bytes `_FILE` whatever the field
`fileSuffix` holds, and a resolver built by `New` from options that are `nil`
or `WithFlagSet` ones has `upper(N)` as the environment key. -/
theorem key_mapping (rt : Runtime) (fe : FlagEnv) (name : GoString) :
    fe.asEnvKey rt name = fe.envPrefix ++ ToUpper rt.caseTable name ∧
      fe.asEnvFileKey rt name = fe.asEnvKey rt name ++ [0x5F, 0x46, 0x49, 0x4C, 0x45] ∧
      (∀ suffix : GoString,
        ({ fe with fileSuffix := suffix } : FlagEnv).asEnvFileKey rt name
          = fe.asEnvFileKey rt name) ∧
      ∀ opts : List (Option FlagOption),
        (∀ o ∈ opts, o = none ∨ ∃ f, o = some (WithFlagSet f)) →
        ∃ fe1, New rt opts = .ok fe1 ∧ fe1.asEnvKey rt name = ToUpper rt.caseTable name := by
  refine ⟨rfl, ?_, fun _ => rfl, ?_⟩
  · have h : str "_FILE" = [0x5F, 0x46, 0x49, 0x4C, 0x45] := by decide
    simp [FlagEnv.asEnvFileKey, h]
  · intro opts hopts
    obtain ⟨fe1, h1, h2, _⟩ := applyOptions_WithFlagSet opts
      { fileSuffix := str "_FILE", flagset := rt.CommandLine, envPrefix := [] } hopts
    refine ⟨fe1, h1, ?_⟩
    simp [FlagEnv.asEnvKey, h2]

/-- In the example the keys of `port` are `API_PORT` and `API_PORT_FILE`, and
under a resolver from `New()` the key is `PORT`. -/
theorem key_mapping_witness :
    demoFlagEnv.asEnvKey demoRuntime (str "port") = str "API_PORT" ∧
      demoFlagEnv.asEnvFileKey demoRuntime (str "port") = str "API_PORT_FILE" ∧
      ∃ fe1, New demoRuntime [] = .ok fe1 ∧ fe1.asEnvKey demoRuntime (str "port") = str "PORT" := by
  have h := key_mapping demoRuntime demoFlagEnv (str "port")
  refine ⟨by decide, by decide, ?_⟩
  obtain ⟨fe1, h1, h2⟩ := h.2.2.2 [] (by simp)
  exact ⟨fe1, h1, by rw [h2]; decide⟩

/-! ## UTF-8 decoding and encoding -/

/-- The leading bytes of multi-byte sequences and what `first` holds for them. -/
theorem first_some (b sz lo hi : Nat) (h : first b = some (sz, lo, hi)) :
    2 ≤ sz ∧ sz ≤ 4 ∧ 0x80 ≤ lo ∧ hi ≤ 0xBF ∧ 0xC2 ≤ b ∧ b ≤ 0xF4 := by
  unfold first at h
  split_ifs at h <;> simp at h <;> omega

/-- The entry of `first` for the leading byte of a two-byte sequence. -/
theorem first_two (b : Nat) (h1 : 0xC2 ≤ b) (h2 : b ≤ 0xDF) :
    first b = some (2, 0x80, 0xBF) := by
  unfold first
  rw [if_pos ⟨h1, h2⟩]

/-- The entry of `first` for the leading byte of a three-byte sequence. -/
theorem first_three (b : Nat) (h1 : 0xE0 ≤ b) (h2 : b ≤ 0xEF) :
    first b = some (3, if b = 0xE0 then 0xA0 else 0x80, if b = 0xED then 0x9F else 0xBF) := by
  unfold first
  split_ifs <;> first | rfl | omega

/-- The entry of `first` for the leading byte of a four-byte sequence. -/
theorem first_four (b : Nat) (h1 : 0xF0 ≤ b) (h2 : b ≤ 0xF4) :
    first b = some (4, if b = 0xF0 then 0x90 else 0x80, if b = 0xF4 then 0x8F else 0xBF) := by
  unfold first
  split_ifs <;> first | rfl | omega

/-- The decoder on a non-empty string, with the indexing resolved. -/
theorem DecodeRuneInString_cons (b0 : Nat) (t : GoString) :
    DecodeRuneInString (b0 :: t) =
      if b0 < 0x80 then (b0, 1) else
      match first b0 with
      | none => (RuneError, 1)
      | some (sz, lo, hi) =>
        if t.length + 1 < sz then (RuneError, 1) else
        if t.getD 0 0 < lo ∨ hi < t.getD 0 0 then (RuneError, 1) else
        if sz ≤ 2 then (b0 % 32 * 64 + t.getD 0 0 % 64, 2) else
        if t.getD 1 0 < 0x80 ∨ 0xBF < t.getD 1 0 then (RuneError, 1) else
        if sz ≤ 3 then (b0 % 16 * 4096 + t.getD 0 0 % 64 * 64 + t.getD 1 0 % 64, 3) else
        if t.getD 2 0 < 0x80 ∨ 0xBF < t.getD 2 0 then (RuneError, 1) else
        (b0 % 8 * 262144 + t.getD 0 0 % 64 * 4096 + t.getD 1 0 % 64 * 64 + t.getD 2 0 % 64, 4) := by
  rfl

/-- The width the decoder reports never exceeds the bytes that are there. -/
theorem DecodeRuneInString_width_le (b0 : Nat) (t : GoString) :
    (DecodeRuneInString (b0 :: t)).2 ≤ t.length + 1 := by
  rw [DecodeRuneInString_cons]
  cases hf : first b0 with
  | none => simp only []; split_ifs <;> simp
  | some x =>
    obtain ⟨sz, lo, hi⟩ := x
    have := first_some _ _ _ _ hf
    simp only []
    split_ifs <;> simp only [] <;> omega

/-- An ASCII byte appended to the string changes nothing for the first rune:
it completes no multi-byte sequence. -/
theorem DecodeRuneInString_append_ascii (b c : Nat) (t : GoString) (hc : c < 0x80) :
    DecodeRuneInString (b :: (t ++ [c])) = DecodeRuneInString (b :: t) := by
  rw [DecodeRuneInString_cons, DecodeRuneInString_cons]
  cases hf : first b with
  | none => rfl
  | some x =>
    obtain ⟨sz, lo, hi⟩ := x
    have := first_some _ _ _ _ hf
    have hclo : c < lo := by omega
    have hsz : sz = 2 ∨ sz = 3 ∨ sz = 4 := by omega
    rcases hsz with rfl | rfl | rfl <;>
      rcases t with _ | ⟨b1, _ | ⟨b2, _ | ⟨b3, t⟩⟩⟩ <;>
      simp [hclo, hc]
    all_goals (split_ifs <;> first | rfl | omega)

/-- Decoding inverts encoding on valid runes. -/
theorem DecodeRuneInString_encodeRune (r : Nat) (hr : ValidRune r) (rest : GoString) :
    DecodeRuneInString (encodeRune r ++ rest) = (r, (encodeRune r).length) := by
  obtain ⟨hmax, hsur⟩ := hr
  unfold encodeRune
  by_cases h1 : r ≤ 0x7F
  · rw [if_pos h1]
    simp only [List.singleton_append, DecodeRuneInString_cons, List.length_singleton]
    rw [if_pos (by omega)]
  · rw [if_neg h1]
    by_cases h2 : r ≤ 0x7FF
    · rw [if_pos h2]
      simp only [List.cons_append, List.nil_append, DecodeRuneInString_cons]
      rw [if_neg (by omega), first_two _ (by omega) (by omega)]
      simp only [List.length_cons, List.getD_cons_zero]
      rw [if_neg (by omega), if_neg (by omega), if_pos (by omega)]
      simp only [List.length_nil, Prod.mk.injEq, and_true]
      omega
    · rw [if_neg h2, if_neg (by omega)]
      by_cases h3 : r ≤ 0xFFFF
      · rw [if_pos h3]
        simp only [List.cons_append, List.nil_append, DecodeRuneInString_cons]
        rw [if_neg (by omega), first_three _ (by omega) (by omega)]
        simp only [List.length_cons, List.getD_cons_zero, List.getD_cons_succ]
        rw [if_neg (by omega), if_neg (by split_ifs <;> omega), if_neg (by omega),
          if_neg (by omega), if_pos (by omega)]
        simp only [List.length_nil, Prod.mk.injEq, and_true]
        omega
      · rw [if_neg h3]
        simp only [List.cons_append, List.nil_append, DecodeRuneInString_cons]
        rw [if_neg (by omega), first_four _ (by omega) (by omega)]
        simp only [List.length_cons, List.getD_cons_zero, List.getD_cons_succ]
        rw [if_neg (by omega), if_neg (by split_ifs <;> omega), if_neg (by omega),
          if_neg (by omega), if_neg (by omega), if_neg (by omega)]
        simp only [List.length_nil, Prod.mk.injEq, and_true]
        omega

/-- The entries of `first`, by length of the sequence, with the narrowed ranges
of the second byte after `E0`, `ED`, `F0` and `F4`. -/
theorem first_cases (b sz lo hi : Nat) (h : first b = some (sz, lo, hi)) :
    (sz = 2 ∧ 0xC2 ≤ b ∧ b ≤ 0xDF ∧ lo = 0x80 ∧ hi = 0xBF) ∨
      (sz = 3 ∧ 0xE0 ≤ b ∧ b ≤ 0xEF ∧ 0x80 ≤ lo ∧ hi ≤ 0xBF ∧ (b = 0xE0 → lo = 0xA0) ∧
        (b = 0xED → hi = 0x9F)) ∨
      (sz = 4 ∧ 0xF0 ≤ b ∧ b ≤ 0xF4 ∧ 0x80 ≤ lo ∧ hi ≤ 0xBF ∧ (b = 0xF0 → lo = 0x90) ∧
        (b = 0xF4 → hi = 0x8F)) := by
  unfold first at h
  split_ifs at h <;> simp at h <;> omega

/-- The decoder only produces valid runes. -/
theorem DecodeRuneInString_valid (s : GoString) : ValidRune (DecodeRuneInString s).1 := by
  rcases s with _ | ⟨b0, t⟩
  · simp [DecodeRuneInString, ValidRune, RuneError]
  · rw [DecodeRuneInString_cons]
    cases hf : first b0 with
    | none =>
      simp only [ValidRune, RuneError]
      split_ifs <;> simp only [] <;> omega
    | some x =>
      obtain ⟨sz, lo, hi⟩ := x
      simp only [ValidRune, RuneError]
      rcases first_cases _ _ _ _ hf with ⟨rfl, h⟩ | ⟨rfl, h⟩ | ⟨rfl, h⟩
      · split_ifs <;> simp only [] <;> omega
      · split_ifs <;> simp only [] <;> omega
      · split_ifs <;> simp only [] <;> omega


/-- A `range` loop over a string only visits valid runes. -/
theorem rangeRunes_valid (s : GoString) : ∀ skip, ∀ r ∈ rangeRunes skip s, ValidRune r := by
  induction s with
  | nil => intro skip r hr; simp [rangeRunes] at hr
  | cons b t ih =>
    intro skip r hr
    cases skip with
    | zero =>
      rw [rangeRunes] at hr
      rcases List.mem_cons.mp hr with rfl | hr
      · exact DecodeRuneInString_valid _
      · exact ih _ r hr
    | succ k =>
      rw [rangeRunes] at hr
      exact ih k r hr

/-- An ASCII byte appended to a string is visited last, as itself. -/
theorem rangeRunes_append_ascii (c : Nat) (hc : c < 0x80) (s : GoString) :
    ∀ skip, skip ≤ s.length → rangeRunes skip (s ++ [c]) = rangeRunes skip s ++ [c] := by
  induction s with
  | nil =>
    intro skip hs
    have h0 : skip = 0 := by simpa using hs
    subst h0
    simp [rangeRunes, DecodeRuneInString_cons, hc]
  | cons b t ih =>
    intro skip hs
    cases skip with
    | zero =>
      have hw := DecodeRuneInString_width_le b t
      have hd := DecodeRuneInString_append_ascii b c t hc
      show rangeRunes 0 (b :: (t ++ [c])) = rangeRunes 0 (b :: t) ++ [c]
      rw [rangeRunes, rangeRunes, hd, ih _ (by omega)]
      rfl
    | succ k =>
      show rangeRunes (k + 1) (b :: (t ++ [c])) = rangeRunes (k + 1) (b :: t) ++ [c]
      rw [rangeRunes, rangeRunes]
      exact ih k (by simpa using hs)

/-- Passing over the bytes of a rune already decoded. -/
theorem rangeRunes_skip (pre rest : GoString) :
    rangeRunes pre.length (pre ++ rest) = rangeRunes 0 rest := by
  induction pre with
  | nil => rfl
  | cons b t ih =>
    show rangeRunes (t.length + 1) (b :: (t ++ rest)) = rangeRunes 0 rest
    rw [rangeRunes]
    exact ih

/-- An ASCII rune is written as one byte. -/
theorem encodeRune_ascii (u : Nat) (hu : u ≤ 0x7F) : encodeRune u = [u] := by
  unfold encodeRune
  rw [if_pos hu]

/-- A rune above ASCII is written with bytes above ASCII only. -/
theorem encodeRune_high (u b : Nat) (hu : 0x7F < u) (hb : b ∈ encodeRune u) : 0x80 ≤ b := by
  unfold encodeRune at hb
  split_ifs at hb <;> simp at hb <;> omega

/-- A `range` loop over the encoding of a valid rune visits that rune first. -/
theorem rangeRunes_encodeRune (r : Nat) (hr : ValidRune r) (rest : GoString) :
    rangeRunes 0 (encodeRune r ++ rest) = r :: rangeRunes 0 rest := by
  have hd := DecodeRuneInString_encodeRune r hr rest
  cases he : encodeRune r with
  | nil =>
    have : (encodeRune r).length ≠ 0 := by
      unfold encodeRune; split_ifs <;> simp
    rw [he] at this
    exact absurd rfl this
  | cons b tl =>
    rw [he] at hd
    show rangeRunes 0 (b :: (tl ++ rest)) = r :: rangeRunes 0 rest
    rw [rangeRunes]
    have hd2 : DecodeRuneInString (b :: (tl ++ rest)) = (r, tl.length + 1) := hd
    rw [hd2]
    show r :: rangeRunes (tl.length + 1 - 1) (tl ++ rest) = r :: rangeRunes 0 rest
    rw [Nat.add_sub_cancel, rangeRunes_skip]

/-- A `range` loop over the encodings of valid runes visits exactly them. -/
theorem rangeRunes_flatMap_encodeRune (rs : List Nat) (h : ∀ r ∈ rs, ValidRune r) :
    rangeRunes 0 (rs.flatMap encodeRune) = rs := by
  induction rs with
  | nil => rfl
  | cons r t ih =>
    rw [List.flatMap_cons, rangeRunes_encodeRune r (h r (List.mem_cons_self _ _)),
      ih (fun r hr => h r (List.mem_cons_of_mem _ hr))]

/-! ## Case mapping and the stored prefix -/

/-- On a string of ASCII bytes `strings.ToUpper` maps byte by byte. -/
theorem ToUpper_of_ascii (tbl : Nat → Nat) (s : GoString)
    (h : ∀ c ∈ s, c < 0x80) :
    ToUpper tbl s = s.map (fun c => if 0x61 ≤ c ∧ c ≤ 0x7A then c - 0x20 else c) := by
  have hall : s.all (fun c => decide (c < 0x80)) = true := by
    simpa [List.all_eq_true] using h
  unfold ToUpper
  simp only [hall, if_true]
  by_cases hl : s.any (fun c => decide (0x61 ≤ c ∧ c ≤ 0x7A)) = true
  · simp only [hl, Bool.not_true, Bool.false_eq_true, if_false]
  · have hl2 : s.any (fun c => decide (0x61 ≤ c ∧ c ≤ 0x7A)) = false := by simpa using hl
    simp only [hl2, Bool.not_false, if_true]
    have : ∀ c ∈ s, (fun c => if 0x61 ≤ c ∧ c ≤ 0x7A then c - 0x20 else c) c = id c := by
      intro c hc
      have := List.any_eq_false.mp hl2 c hc
      simp only [decide_eq_true_eq] at this
      simp [this]
    rw [List.map_congr_left this, List.map_id]

/-- A string without ASCII lower-case letters that `strings.Map` leaves alone is
left alone by `strings.ToUpper`. -/
theorem ToUpper_fixed (tbl : Nat → Nat) (s : GoString)
    (hno : ∀ c ∈ s, ¬ (0x61 ≤ c ∧ c ≤ 0x7A))
    (hup : Map (unicodeToUpper tbl) s = s) : ToUpper tbl s = s := by
  unfold ToUpper
  have hl2 : s.any (fun c => decide (0x61 ≤ c ∧ c ≤ 0x7A)) = false := by
    rw [List.any_eq_false]
    intro c hc
    simpa using hno c hc
  simp only [hl2, Bool.not_false, if_true, hup, ite_self]

/-- Encoding the images of runes. -/
theorem flatMap_map_encode (f : Nat → Nat) (rs : List Nat) :
    (rs.map f).flatMap encodeRune = rs.flatMap (fun c => encodeRune (f c)) := by
  induction rs with
  | nil => rfl
  | cons r t ih =>
    simp only [List.map_cons, List.flatMap_cons, ih]

/-- With a case table that yields valid runes, `unicode.ToUpper` does too. -/
theorem unicodeToUpper_valid (tbl : Nat → Nat)
    (hvalid : ∀ r, 0x7F < r → ValidRune r → ValidRune (tbl r))
    (r : Nat) (hr : ValidRune r) : ValidRune (unicodeToUpper tbl r) := by
  unfold unicodeToUpper
  split_ifs with h1 h2
  · unfold ValidRune; omega
  · exact hr
  · exact hvalid r (by omega) hr

/-- With a case table whose images are upper case already, `unicode.ToUpper`
is idempotent. -/
theorem unicodeToUpper_idem (tbl : Nat → Nat)
    (hidem : ∀ r, 0x7F < r → ValidRune r → unicodeToUpper tbl (tbl r) = tbl r)
    (r : Nat) (hr : ValidRune r) :
    unicodeToUpper tbl (unicodeToUpper tbl r) = unicodeToUpper tbl r := by
  by_cases h1 : r ≤ 0x7F
  · unfold unicodeToUpper
    rw [if_pos h1]
    split_ifs <;> omega
  · have : unicodeToUpper tbl r = tbl r := by
      unfold unicodeToUpper; rw [if_neg h1]
    rw [this]
    exact hidem r (by omega) hr

/-- The value of `strings.Map`, as the encodings of the upper-cased runes. -/
theorem Map_eq (tbl : Nat → Nat) (s : GoString) :
    Map (unicodeToUpper tbl) s
      = ((rangeRunes 0 s).map (unicodeToUpper tbl)).flatMap encodeRune := by
  unfold Map
  rw [flatMap_map_encode]

/-- Upper-casing rune by rune is idempotent. -/
theorem Map_idem (tbl : Nat → Nat)
    (hvalid : ∀ r, 0x7F < r → ValidRune r → ValidRune (tbl r))
    (hidem : ∀ r, 0x7F < r → ValidRune r → unicodeToUpper tbl (tbl r) = tbl r)
    (s : GoString) :
    Map (unicodeToUpper tbl) (Map (unicodeToUpper tbl) s) = Map (unicodeToUpper tbl) s := by
  rw [Map_eq tbl s, Map_eq tbl, rangeRunes_flatMap_encodeRune]
  · rw [List.map_map]
    congr 1
    apply List.map_congr_left
    intro r hr
    exact unicodeToUpper_idem tbl hidem r (rangeRunes_valid s 0 r hr)
  · intro u hu
    obtain ⟨r, hr, rfl⟩ := List.mem_map.mp hu
    exact unicodeToUpper_valid tbl hvalid r (rangeRunes_valid s 0 r hr)

/-- Upper-casing rune by rune leaves no ASCII lower-case letter. -/
theorem Map_no_lower (tbl : Nat → Nat)
    (hidem : ∀ r, 0x7F < r → ValidRune r → unicodeToUpper tbl (tbl r) = tbl r)
    (s : GoString) : ∀ b ∈ Map (unicodeToUpper tbl) s, ¬ (0x61 ≤ b ∧ b ≤ 0x7A) := by
  intro b hb
  unfold Map at hb
  obtain ⟨r, hr, hbr⟩ := List.mem_flatMap.mp hb
  have hfix := unicodeToUpper_idem tbl hidem r (rangeRunes_valid s 0 r hr)
  by_cases hu : unicodeToUpper tbl r ≤ 0x7F
  · rw [encodeRune_ascii _ hu] at hbr
    have hbu : b = unicodeToUpper tbl r := by simpa using hbr
    rw [← hbu] at hfix hu
    unfold unicodeToUpper at hfix
    rw [if_pos hu] at hfix
    intro hlow
    rw [if_pos hlow] at hfix
    omega
  · have := encodeRune_high _ b (by omega) hbr
    omega

/-- Upper-casing byte by byte gives ASCII bytes, none of them lower case. -/
theorem ToUpper_no_lower_ascii (s : GoString) (h : ∀ c ∈ s, c < 0x80) :
    ∀ b ∈ s.map (fun c => if 0x61 ≤ c ∧ c ≤ 0x7A then c - 0x20 else c),
      b < 0x80 ∧ ¬ (0x61 ≤ b ∧ b ≤ 0x7A) := by
  intro b hb
  obtain ⟨c, hc, rfl⟩ := List.mem_map.mp hb
  have := h c hc
  split_ifs <;> omega

/-- On strings of ASCII bytes `strings.ToUpper` is idempotent, whatever the case
table. -/
theorem ToUpper_idem_ascii (tbl : Nat → Nat) (s : GoString) (h : ∀ c ∈ s, c < 0x80) :
    ToUpper tbl (ToUpper tbl s) = ToUpper tbl s := by
  rw [ToUpper_of_ascii tbl s h]
  have h2 := ToUpper_no_lower_ascii s h
  rw [ToUpper_of_ascii tbl _ (fun b hb => (h2 b hb).1)]
  rw [List.map_map]
  apply List.map_congr_left
  intro c hc
  simp only [Function.comp]
  split_ifs <;> omega

/-- The function `strings.ToUpper` is idempotent, for a case table that yields
valid runes which are upper case already. -/
theorem ToUpper_idem (tbl : Nat → Nat) (htbl : UpperCaseTable tbl) (s : GoString) :
    ToUpper tbl (ToUpper tbl s) = ToUpper tbl s := by
  by_cases h : ∀ c ∈ s, c < 0x80
  · exact ToUpper_idem_ascii tbl s h
  · have hall : s.all (fun c => decide (c < 0x80)) = false := by
      rw [List.all_eq_false]
      push_neg at h
      obtain ⟨c, hc, hlt⟩ := h
      exact ⟨c, hc, by simpa using hlt⟩
    have hT : ToUpper tbl s = Map (unicodeToUpper tbl) s := by
      unfold ToUpper
      simp only [hall, Bool.false_eq_true, if_false]
    rw [hT]
    exact ToUpper_fixed tbl _ (Map_no_lower tbl (fun r h1 h2 => (htbl r h1 h2).2) s)
      (Map_idem tbl (fun r h1 h2 => (htbl r h1 h2).1) (fun r h1 h2 => (htbl r h1 h2).2) s)

/-- The meaning of `strings.HasSuffix`. -/
theorem HasSuffix_iff (s suffix : GoString) :
    HasSuffix s suffix = true ↔ ∃ t, s = t ++ suffix := by
  unfold HasSuffix
  simp only [Bool.and_eq_true, decide_eq_true_eq, beq_iff_eq]
  constructor
  · rintro ⟨_, h2⟩
    refine ⟨s.take (s.length - suffix.length), ?_⟩
    conv_lhs => rw [← List.take_append_drop (s.length - suffix.length) s]
    rw [h2]
  · rintro ⟨t, rfl⟩
    refine ⟨by simp, ?_⟩
    simp

/-- A trailing `_` survives `strings.ToUpper`. -/
theorem ToUpper_append_separator (tbl : Nat → Nat) (s : GoString) :
    ∃ t, ToUpper tbl (s ++ [0x5F]) = t ++ [0x5F] := by
  by_cases h : ∀ c ∈ s ++ [0x5F], c < 0x80
  · rw [ToUpper_of_ascii tbl _ h]
    exact ⟨s.map (fun c => if 0x61 ≤ c ∧ c ≤ 0x7A then c - 0x20 else c), by simp⟩
  · have hall : (s ++ [0x5F]).all (fun c => decide (c < 0x80)) = false := by
      rw [List.all_eq_false]
      push_neg at h
      obtain ⟨c, hc, hlt⟩ := h
      exact ⟨c, hc, by simpa using hlt⟩
    have hT : ToUpper tbl (s ++ [0x5F]) = Map (unicodeToUpper tbl) (s ++ [0x5F]) := by
      unfold ToUpper
      simp only [hall, Bool.false_eq_true, if_false]
    rw [hT]
    unfold Map
    rw [rangeRunes_append_ascii 0x5F (by omega) s 0 (Nat.zero_le _), List.flatMap_append]
    refine ⟨_, congrArg _ ?_⟩
    simp [unicodeToUpper, encodeRune]

/-- The prefix stored by `SetEnvPrefix`. -/
theorem SetEnvPrefix_envPrefix (rt : Runtime) (fe : FlagEnv) (p : GoString) :
    (fe.SetEnvPrefix rt p).envPrefix
      = ToUpper rt.caseTable (if HasSuffix p (str "_") = true then p else p ++ str "_") := by
  unfold FlagEnv.SetEnvPrefix
  by_cases h : HasSuffix p (str "_") = true
  · simp [h]
  · simp [h]

/-- The prefix stored by `SetEnvPrefix` ends in `_`. -/
theorem SetEnvPrefix_ends (rt : Runtime) (fe : FlagEnv) (p : GoString) :
    ∃ t, (fe.SetEnvPrefix rt p).envPrefix = t ++ [0x5F] := by
  rw [SetEnvPrefix_envPrefix]
  have hs : str "_" = [0x5F] := by decide
  rw [hs]
  by_cases h : HasSuffix p [0x5F] = true
  · rw [if_pos h]
    obtain ⟨t, rfl⟩ := (HasSuffix_iff _ _).mp h
    exact ToUpper_append_separator _ t
  · rw [if_neg h]
    exact ToUpper_append_separator _ p

/-- Storing the stored prefix again changes nothing, once the stored prefix is
known to be its own upper case. -/
theorem SetEnvPrefix_again (rt : Runtime) (fe : FlagEnv) (p : GoString)
    (hup : ToUpper rt.caseTable (fe.SetEnvPrefix rt p).envPrefix
      = (fe.SetEnvPrefix rt p).envPrefix) :
    (fe.SetEnvPrefix rt p).SetEnvPrefix rt (fe.SetEnvPrefix rt p).envPrefix
      = fe.SetEnvPrefix rt p := by
  obtain ⟨t, ht⟩ := SetEnvPrefix_ends rt fe p
  have hsuf : HasSuffix (fe.SetEnvPrefix rt p).envPrefix (str "_") = true := by
    have hs : str "_" = [0x5F] := by decide
    rw [hs]
    exact (HasSuffix_iff _ _).mpr ⟨t, ht⟩
  have h2 := SetEnvPrefix_envPrefix rt (fe.SetEnvPrefix rt p) (fe.SetEnvPrefix rt p).envPrefix
  rw [if_pos hsuf, hup] at h2
  cases hfe : fe.SetEnvPrefix rt p with
  | mk a b c =>
    rw [hfe] at h2
    simp only [FlagEnv.SetEnvPrefix] at h2 ⊢
    simp only [FlagEnv.mk.injEq, true_and, and_true]
    exact h2

/-- The prefix stored for a string of ASCII bytes is its own upper case. -/
theorem SetEnvPrefix_upper_ascii (rt : Runtime) (fe : FlagEnv) (p : GoString)
    (hp : ∀ c ∈ p, c < 0x80) :
    ToUpper rt.caseTable (fe.SetEnvPrefix rt p).envPrefix = (fe.SetEnvPrefix rt p).envPrefix := by
  rw [SetEnvPrefix_envPrefix]
  apply ToUpper_idem_ascii
  intro c hc
  split_ifs at hc
  · exact hp c hc
  · rcases List.mem_append.mp hc with h | h
    · exact hp c h
    · have hs : str "_" = [0x5F] := by decide
      rw [hs] at h
      simp at h
      omega

/-- C9: `SetEnvPrefix("api")` and `SetEnvPrefix("API_")` store `API_`, one after
the other too; for every `p`, storing the stored prefix again changes nothing
and the stored prefix is its own upper case: for `p` of ASCII bytes whatever
the Unicode case table is, for every other `p` given that the case table maps
valid runes to valid runes that are upper case already. -/
theorem SetEnvPrefix_idempotent (rt : Runtime) (fe : FlagEnv) :
    (fe.SetEnvPrefix rt (str "api")).envPrefix = str "API_" ∧
      (fe.SetEnvPrefix rt (str "API_")).envPrefix = str "API_" ∧
      ((fe.SetEnvPrefix rt (str "api")).SetEnvPrefix rt (str "API_")).envPrefix = str "API_" ∧
      ∀ p : GoString, ((∀ c ∈ p, c < 0x80) ∨ UpperCaseTable rt.caseTable) →
        (fe.SetEnvPrefix rt p).SetEnvPrefix rt (fe.SetEnvPrefix rt p).envPrefix
            = fe.SetEnvPrefix rt p ∧
          ToUpper rt.caseTable (fe.SetEnvPrefix rt p).envPrefix
            = (fe.SetEnvPrefix rt p).envPrefix := by
  refine ⟨?_, ?_, ?_, ?_⟩
  · have h1 : (if HasSuffix (str "api") (str "_") = true then str "api"
        else str "api" ++ str "_") = str "api_" := by decide
    rw [SetEnvPrefix_envPrefix, h1, ToUpper_of_ascii _ _ (by decide)]
    decide
  · have h1 : (if HasSuffix (str "API_") (str "_") = true then str "API_"
        else str "API_" ++ str "_") = str "API_" := by decide
    rw [SetEnvPrefix_envPrefix, h1, ToUpper_of_ascii _ _ (by decide)]
    decide
  · have h1 : (if HasSuffix (str "API_") (str "_") = true then str "API_"
        else str "API_" ++ str "_") = str "API_" := by decide
    rw [SetEnvPrefix_envPrefix, h1, ToUpper_of_ascii _ _ (by decide)]
    decide
  · intro p hp
    have hup : ToUpper rt.caseTable (fe.SetEnvPrefix rt p).envPrefix
        = (fe.SetEnvPrefix rt p).envPrefix := by
      rcases hp with hp | htbl
      · exact SetEnvPrefix_upper_ascii rt fe p hp
      · rw [SetEnvPrefix_envPrefix]
        exact ToUpper_idem _ htbl _
    exact ⟨SetEnvPrefix_again rt fe p hup, hup⟩

/-- The Latin-1 fragment of the case table yields valid runes that are upper
case already. -/
theorem latin1CaseTable_upper : UpperCaseTable latin1CaseTable := by
  intro r h hr
  constructor
  · unfold latin1CaseTable ValidRune at *
    split_ifs <;> omega
  · unfold unicodeToUpper latin1CaseTable
    split_ifs <;> omega

/-- With the Latin-1 fragment as case table, the prefix `é` is stored as `É_`,
which is stored as itself and is its own upper case. -/
theorem SetEnvPrefix_idempotent_witness :
    (demoFlagEnv.SetEnvPrefix demoRuntime [0xC3, 0xA9]).envPrefix = [0xC3, 0x89, 0x5F] ∧
      ((demoFlagEnv.SetEnvPrefix demoRuntime [0xC3, 0xA9]).SetEnvPrefix demoRuntime
        [0xC3, 0x89, 0x5F]).envPrefix = [0xC3, 0x89, 0x5F] ∧
      ToUpper latin1CaseTable [0xC3, 0x89, 0x5F] = [0xC3, 0x89, 0x5F] := by
  have h := (SetEnvPrefix_idempotent demoRuntime demoFlagEnv).2.2.2 [0xC3, 0xA9]
    (Or.inr latin1CaseTable_upper)
  have he : (demoFlagEnv.SetEnvPrefix demoRuntime [0xC3, 0xA9]).envPrefix
      = [0xC3, 0x89, 0x5F] := by decide
  rw [he] at h
  exact ⟨he, by rw [h.1]; exact he, h.2⟩

/-- Whether a string with a known last byte ends in exactly one separator. -/
theorem endsInOneSeparator_concat (t : GoString) (c : Nat) :
    endsInOneSeparator (t ++ [c]) = (decide (c = 0x5F) && t.getLast? != some 0x5F) := by
  unfold endsInOneSeparator
  rw [List.getLast?_concat, List.dropLast_concat]
  by_cases h : c = 0x5F <;> simp [h]

/-- Whether a string with a known last byte ends in `_`. -/
theorem HasSuffix_concat_one (t : GoString) (c : Nat) :
    HasSuffix (t ++ [c]) [0x5F] = decide (c = 0x5F) := by
  have h := HasSuffix_iff (t ++ [c]) [0x5F]
  by_cases hc : c = 0x5F
  · subst hc
    simpa using h.mpr ⟨t, rfl⟩
  · have : ¬ HasSuffix (t ++ [c]) [0x5F] = true := by
      rw [h]
      rintro ⟨u, hu⟩
      have := List.append_inj_right' hu rfl
      simp at this
      exact hc this
    simpa [hc] using this

/-- Whether a string with a known last byte ends in `__`. -/
theorem HasSuffix_concat_two (t : GoString) (c : Nat) :
    HasSuffix (t ++ [c]) [0x5F, 0x5F] = (decide (c = 0x5F) && t.getLast? == some 0x5F) := by
  have h := HasSuffix_iff (t ++ [c]) [0x5F, 0x5F]
  by_cases hgoal : (c = 0x5F ∧ t.getLast? = some 0x5F)
  · obtain ⟨rfl, ht⟩ := hgoal
    rcases t.eq_nil_or_concat with rfl | ⟨u, d, rfl⟩
    · simp at ht
    · simp only [List.concat_eq_append, List.getLast?_concat, Option.some.injEq] at ht
      subst ht
      have := h.mpr ⟨u, by simp⟩
      simpa using this
  · have : ¬ HasSuffix (t ++ [c]) [0x5F, 0x5F] = true := by
      rw [h]
      rintro ⟨u, hu⟩
      apply hgoal
      have hu2 : t ++ [c] = (u ++ [0x5F]) ++ [0x5F] := by simpa using hu
      have h1 := List.append_inj_right' hu2 rfl
      have h2 := List.append_inj_left' hu2 rfl
      simp only [List.cons.injEq, and_true] at h1
      subst h1 h2
      exact ⟨rfl, List.getLast?_concat _⟩
    have hb : HasSuffix (t ++ [c]) [0x5F, 0x5F] = false := by simpa using this
    rw [hb]
    by_cases hc : c = 0x5F
    · have ht : ¬ t.getLast? = some 0x5F := fun ht => hgoal ⟨hc, ht⟩
      simp [hc, ht]
    · simp [hc]

/-- Upper-casing byte by byte neither makes nor removes a `_`. -/
theorem endsInOneSeparator_map (s : GoString) :
    endsInOneSeparator (s.map (fun c => if 0x61 ≤ c ∧ c ≤ 0x7A then c - 0x20 else c))
      = endsInOneSeparator s := by
  have hf : ∀ o : Option Nat,
      (o.map (fun c => if 0x61 ≤ c ∧ c ≤ 0x7A then c - 0x20 else c) == some 0x5F)
        = (o == some 0x5F) := by
    intro o
    cases o with
    | none => rfl
    | some c =>
      have hc : ((if 0x61 ≤ c ∧ c ≤ 0x7A then c - 0x20 else c) = 0x5F) ↔ c = 0x5F := by
        split_ifs <;> omega
      by_cases h : c = 0x5F
      · simp [h]
      · have h2 := mt hc.mp h
        simp [h, h2]
  unfold endsInOneSeparator
  rw [← List.map_dropLast, List.getLast?_map, List.getLast?_map]
  simp only [bne, hf]

/-- For a prefix of ASCII bytes, the stored prefix ends in exactly one separator
unless the given one ends in two. -/
theorem SetEnvPrefix_ascii_one_separator (rt : Runtime) (fe : FlagEnv) (p : GoString)
    (hp : ∀ c ∈ p, c < 0x80) :
    endsInOneSeparator (fe.SetEnvPrefix rt p).envPrefix = !HasSuffix p (str "__") := by
  have hs1 : str "_" = [0x5F] := by decide
  have hs2 : str "__" = [0x5F, 0x5F] := by decide
  rw [SetEnvPrefix_envPrefix, hs1, hs2]
  have hp1 : ∀ c ∈ (if HasSuffix p [0x5F] = true then p else p ++ [0x5F]), c < 0x80 := by
    intro c hc
    split_ifs at hc
    · exact hp c hc
    · rcases List.mem_append.mp hc with h | h
      · exact hp c h
      · simp at h; omega
  rw [ToUpper_of_ascii _ _ hp1, endsInOneSeparator_map]
  rcases p.eq_nil_or_concat with rfl | ⟨t, c, rfl⟩
  · decide
  · simp only [List.concat_eq_append]
    rw [HasSuffix_concat_one, HasSuffix_concat_two]
    by_cases hc : c = 0x5F
    · simp only [hc, decide_True, if_true, Bool.true_and]
      rw [endsInOneSeparator_concat]
      simp only [decide_True, Bool.true_and]
      rfl
    · simp only [hc, decide_False, Bool.false_eq_true, if_false, Bool.false_and, Bool.not_false]
      rw [endsInOneSeparator_concat, List.getLast?_concat]
      simp [hc]

/-- C8, as stated, fails: the prefix `a__` is stored as `A__` by `SetEnvPrefix`
and by the option `WithPrefix`, and `A__` does not end in exactly one
separator. -/
theorem SetEnvPrefix_keeps_two_separators :
    (demoFlagEnv.SetEnvPrefix demoRuntime (str "a__")).envPrefix = str "A__" ∧
      (WithPrefix demoRuntime (str "a__") demoFlagEnv).1.envPrefix = str "A__" ∧
      endsInOneSeparator (demoFlagEnv.SetEnvPrefix demoRuntime (str "a__")).envPrefix = false := by
  decide

/-- C8, amended: for every `p` the prefix stored by `SetEnvPrefix(p)`, which is
what the option `WithPrefix(p)` stores, ends in the separator `_`; it is the
upper case of `p` when `p` ends in `_` and of `p` followed by one `_`
otherwise, so the trailing separators of `p` are kept; for `p` of ASCII bytes
it ends in exactly one separator if and only if `p` does not end in `__`. -/
theorem SetEnvPrefix_trailing_separator (rt : Runtime) (fe : FlagEnv) (p : GoString) :
    (∃ t, (fe.SetEnvPrefix rt p).envPrefix = t ++ str "_") ∧
      WithPrefix rt p fe = (fe.SetEnvPrefix rt p, none) ∧
      (fe.SetEnvPrefix rt p).envPrefix
        = ToUpper rt.caseTable (if HasSuffix p (str "_") = true then p else p ++ str "_") ∧
      ((∀ c ∈ p, c < 0x80) →
        endsInOneSeparator (fe.SetEnvPrefix rt p).envPrefix = !HasSuffix p (str "__")) := by
  have hs : str "_" = [0x5F] := by decide
  refine ⟨?_, rfl, SetEnvPrefix_envPrefix rt fe p, SetEnvPrefix_ascii_one_separator rt fe p⟩
  rw [hs]
  exact SetEnvPrefix_ends rt fe p

/-- In the example the prefixes `api`, `api_` and `api__` are stored as `API_`,
`API_` and `API__`: the first two end in exactly one separator. -/
theorem SetEnvPrefix_trailing_separator_witness :
    (demoFlagEnv.SetEnvPrefix demoRuntime (str "api")).envPrefix = str "API_" ∧
      (demoFlagEnv.SetEnvPrefix demoRuntime (str "api_")).envPrefix = str "API_" ∧
      (demoFlagEnv.SetEnvPrefix demoRuntime (str "api__")).envPrefix = str "API__" ∧
      endsInOneSeparator (demoFlagEnv.SetEnvPrefix demoRuntime (str "api")).envPrefix = true := by
  have h := (SetEnvPrefix_trailing_separator demoRuntime demoFlagEnv (str "api")).2.2.2
    (by decide)
  refine ⟨by decide, by decide, by decide, ?_⟩
  rw [h]
  decide

/-! ## Typed accessors -/

/-- C11: with `r` the raw value returned by `get` and `d` the default, `GetBool`
returns true exactly when `r` is the literal `true` if `r` is non-empty, so
`TRUE`, `1` and `yes` give `false` whatever the default is, and exactly when
`d` is the literal `true` if `r` is empty. -/
theorem GetBool_strict_literal (rt : Runtime) (fe : FlagEnv) (name r d : GoString)
    (hget : fe.get rt name = .ok (r, d)) :
    (r ≠ [] → fe.GetBool rt name = .ok (r == str "true") ∧
        (fe.GetBool rt name = .ok true ↔ r = str "true")) ∧
      (r = [] → fe.GetBool rt name = .ok (d == str "true") ∧
        (fe.GetBool rt name = .ok true ↔ d = str "true")) ∧
      (r = str "TRUE" ∨ r = str "1" ∨ r = str "yes" → fe.GetBool rt name = .ok false) := by
  refine ⟨?_, ?_, ?_⟩
  · intro hr
    have h : fe.GetBool rt name = .ok (r == str "true") := by
      simp [FlagEnv.GetBool, hget, hr]
    exact ⟨h, by rw [h]; simp⟩
  · intro hr
    have h : fe.GetBool rt name = .ok (d == str "true") := by
      simp [FlagEnv.GetBool, hget, hr]
    exact ⟨h, by rw [h]; simp⟩
  · intro hr
    have hne : r ≠ [] := by
      rcases hr with h | h | h <;> rw [h] <;> decide
    have hnt : r ≠ str "true" := by
      rcases hr with h | h | h <;> rw [h] <;> decide
    simp [FlagEnv.GetBool, hget, hne, hnt]

/-- In the example with `API_VERBOSE=TRUE`, the flag `verbose` (default `false`)
resolves to `TRUE` and `GetBool` returns `false`; with `API_VERBOSE=true` it
returns `true`. -/
theorem GetBool_strict_literal_witness :
    demoFlagEnv.GetBool (demoRuntimeWith (str "API_VERBOSE") (str "TRUE")) (str "verbose")
        = .ok false ∧
      demoFlagEnv.GetBool (demoRuntimeWith (str "API_VERBOSE") (str "true")) (str "verbose")
        = .ok true :=
  ⟨(GetBool_strict_literal (demoRuntimeWith (str "API_VERBOSE") (str "TRUE")) demoFlagEnv
      (str "verbose") (str "TRUE") (str "false") (by decide)).2.2 (Or.inl rfl),
    ((GetBool_strict_literal (demoRuntimeWith (str "API_VERBOSE") (str "true")) demoFlagEnv
      (str "verbose") (str "true") (str "false") (by decide)).1 (by decide)).2.mpr rfl⟩

/-- What `leadingInt` leaves is no longer than its input. -/
theorem leadingInt_length (s : GoString) : ∀ (x v : Nat) (r : GoString),
    leadingInt s x = some (v, r) → r.length ≤ s.length := by
  induction s with
  | nil => intro x v r h; simp [leadingInt] at h; simp [h.2.symm]
  | cons c t ih =>
    intro x v r h
    rw [leadingInt] at h
    split_ifs at h
    · simp at h; rw [← h.2]
    · have := ih _ _ _ h
      simp only [List.length_cons]; omega

/-- What `leadingFraction` leaves is no longer than its input. -/
theorem leadingFraction_length (s : GoString) : ∀ (x k : Nat) (o : Bool),
    (leadingFraction s x k o).2.2.length ≤ s.length := by
  induction s with
  | nil => intro x k o; simp [leadingFraction]
  | cons c t ih =>
    intro x k o
    rw [leadingFraction]
    simp only [List.length_cons]
    split_ifs
    · simp
    · have := ih x k true; omega
    · have := ih x k true; omega
    · have := ih x k true; omega
    · have := ih (x * 10 + c - 0x30) (k + 1) false; omega

/-- The unit scan splits its input in two. -/
theorem spanUnit_length (s : GoString) :
    (spanUnit s).1.length + (spanUnit s).2.length = s.length := by
  induction s with
  | nil => rfl
  | cons c t ih =>
    rw [spanUnit]
    split_ifs
    · simp
    · simp only [List.length_cons]; omega

/-- The loop of `time.ParseDuration` never uses up a number of rounds that is at
least the length of its input: any two such numbers give the same result. -/
theorem durationLoop_rounds (rt : Runtime) (orig : GoString) :
    ∀ (n m : Nat) (s : GoString) (d : Nat), s.length ≤ n → s.length ≤ m →
      durationLoop rt orig n s d = durationLoop rt orig m s d := by
  intro n
  induction n with
  | zero =>
    intro m s d hn hm
    have : s = [] := List.length_eq_zero.mp (Nat.le_zero.mp hn)
    subst this
    cases m <;> rfl
  | succ n ih =>
    intro m s d hn hm
    cases s with
    | nil => cases m <;> rfl
    | cons c t =>
      cases m with
      | zero => simp at hm
      | succ m =>
        rw [durationLoop, durationLoop]
        cases hli : leadingInt (c :: t) 0 with
        | none => rfl
        | some p =>
          obtain ⟨v, s1⟩ := p
          have h1 := leadingInt_length _ _ _ _ hli
          have key : ∀ fr : Nat × Nat × GoString × Bool, fr.2.2.1.length ≤ s1.length →
              (if !(c = 0x2E ∨ (0x30 ≤ c ∧ c ≤ 0x39)) then Except.error (GoError.invalidDuration orig) else
                if !decide ((c :: t).length ≠ s1.length) && !fr.2.2.2 then
                  Except.error (GoError.invalidDuration orig) else
                if (spanUnit fr.2.2.1).1 = [] then Except.error (GoError.missingUnit orig) else
                match unitMap (spanUnit fr.2.2.1).1 with
                | none => Except.error (GoError.unknownUnit (spanUnit fr.2.2.1).1 orig)
                | some unit =>
                  if v > 2 ^ 63 / unit then Except.error (GoError.invalidDuration orig) else
                  if fr.1 > 0 ∧ (if fr.1 > 0 then
                      (v * unit + rt.fracNanos fr.1 fr.2.1 unit) % 2 ^ 64 else v * unit) > 2 ^ 63
                  then Except.error (GoError.invalidDuration orig) else
                  if (d + (if fr.1 > 0 then
                      (v * unit + rt.fracNanos fr.1 fr.2.1 unit) % 2 ^ 64 else v * unit)) % 2 ^ 64
                      > 2 ^ 63
                  then Except.error (GoError.invalidDuration orig) else
                  durationLoop rt orig n (spanUnit fr.2.2.1).2
                    ((d + (if fr.1 > 0 then
                      (v * unit + rt.fracNanos fr.1 fr.2.1 unit) % 2 ^ 64 else v * unit)) % 2 ^ 64) : Except GoError Nat)
              = (if !(c = 0x2E ∨ (0x30 ≤ c ∧ c ≤ 0x39)) then Except.error (GoError.invalidDuration orig) else
                if !decide ((c :: t).length ≠ s1.length) && !fr.2.2.2 then
                  Except.error (GoError.invalidDuration orig) else
                if (spanUnit fr.2.2.1).1 = [] then Except.error (GoError.missingUnit orig) else
                match unitMap (spanUnit fr.2.2.1).1 with
                | none => Except.error (GoError.unknownUnit (spanUnit fr.2.2.1).1 orig)
                | some unit =>
                  if v > 2 ^ 63 / unit then Except.error (GoError.invalidDuration orig) else
                  if fr.1 > 0 ∧ (if fr.1 > 0 then
                      (v * unit + rt.fracNanos fr.1 fr.2.1 unit) % 2 ^ 64 else v * unit) > 2 ^ 63
                  then Except.error (GoError.invalidDuration orig) else
                  if (d + (if fr.1 > 0 then
                      (v * unit + rt.fracNanos fr.1 fr.2.1 unit) % 2 ^ 64 else v * unit)) % 2 ^ 64
                      > 2 ^ 63
                  then Except.error (GoError.invalidDuration orig) else
                  durationLoop rt orig m (spanUnit fr.2.2.1).2
                    ((d + (if fr.1 > 0 then
                      (v * unit + rt.fracNanos fr.1 fr.2.1 unit) % 2 ^ 64 else v * unit)) % 2 ^ 64)) := by
            intro fr hfr
            have hsp := spanUnit_length fr.2.2.1
            simp only [List.length_cons] at hn hm h1
            split
            · rfl
            split
            · rfl
            split
            · rfl
            rename_i h4
            have hu : 1 ≤ (spanUnit fr.2.2.1).1.length := by
              cases hx : (spanUnit fr.2.2.1).1 with
              | nil => exact absurd hx h4
              | cons a b => simp
            split
            · rfl
            all_goals (repeat' split)
            all_goals first | rfl | exact ih m _ _ (by omega) (by omega)
          refine key _ ?_
          split
          · have := leadingFraction_length ‹GoString› 0 0 false
            simp only [List.length_cons]
            omega
          · exact Nat.le_refl _


/-- What `leadingInt` leaves is made of bytes of its input. -/
theorem leadingInt_subset (s : GoString) : ∀ (x v : Nat) (r : GoString),
    leadingInt s x = some (v, r) → ∀ b ∈ r, b ∈ s := by
  induction s with
  | nil =>
    intro x v r h b hb
    simp [leadingInt] at h
    rw [h.2] at hb
    exact hb
  | cons c t ih =>
    intro x v r h b hb
    rw [leadingInt] at h
    split_ifs at h
    · simp only [Option.some.injEq, Prod.mk.injEq] at h
      rw [← h.2] at hb
      exact hb
    · exact List.mem_cons_of_mem _ (ih _ _ _ h b hb)

/-- What the unit scan leaves is made of bytes of its input. -/
theorem spanUnit_subset (s : GoString) : ∀ b ∈ (spanUnit s).2, b ∈ s := by
  induction s with
  | nil => intro b hb; simp [spanUnit] at hb
  | cons c t ih =>
    intro b hb
    rw [spanUnit] at hb
    split_ifs at hb
    · exact hb
    · exact List.mem_cons_of_mem _ (ih b hb)

/-- On a string without a period the loop of `time.ParseDuration` never
reaches its float64 step, so it gives the same under every runtime. -/
theorem durationLoop_no_fraction (rt rt2 : Runtime) (orig : GoString) :
    ∀ (n : Nat) (s : GoString) (d : Nat), 0x2E ∉ s →
      durationLoop rt orig n s d = durationLoop rt2 orig n s d := by
  intro n
  induction n with
  | zero => intro s d _; cases s <;> rfl
  | succ n ih =>
    intro s d hs
    cases s with
    | nil => rfl
    | cons c t =>
      rw [durationLoop, durationLoop]
      cases hli : leadingInt (c :: t) 0 with
      | none => rfl
      | some p =>
        obtain ⟨v, s1⟩ := p
        have hs1 : 0x2E ∉ s1 := fun h => hs (leadingInt_subset _ _ _ _ hli _ h)
        have key : ∀ fr : Nat × Nat × GoString × Bool, fr = (0, 0, s1, false) →
            (if !(c = 0x2E ∨ (0x30 ≤ c ∧ c ≤ 0x39)) then Except.error (GoError.invalidDuration orig) else
                if !decide ((c :: t).length ≠ s1.length) && !fr.2.2.2 then
                  Except.error (GoError.invalidDuration orig) else
                if (spanUnit fr.2.2.1).1 = [] then Except.error (GoError.missingUnit orig) else
                match unitMap (spanUnit fr.2.2.1).1 with
                | none => Except.error (GoError.unknownUnit (spanUnit fr.2.2.1).1 orig)
                | some unit =>
                  if v > 2 ^ 63 / unit then Except.error (GoError.invalidDuration orig) else
                  if fr.1 > 0 ∧ (if fr.1 > 0 then
                      (v * unit + rt.fracNanos fr.1 fr.2.1 unit) % 2 ^ 64 else v * unit) > 2 ^ 63
                  then Except.error (GoError.invalidDuration orig) else
                  if (d + (if fr.1 > 0 then
                      (v * unit + rt.fracNanos fr.1 fr.2.1 unit) % 2 ^ 64 else v * unit)) % 2 ^ 64
                      > 2 ^ 63
                  then Except.error (GoError.invalidDuration orig) else
                  durationLoop rt orig n (spanUnit fr.2.2.1).2
                    ((d + (if fr.1 > 0 then
                      (v * unit + rt.fracNanos fr.1 fr.2.1 unit) % 2 ^ 64 else v * unit)) % 2 ^ 64) : Except GoError Nat)
            = (if !(c = 0x2E ∨ (0x30 ≤ c ∧ c ≤ 0x39)) then Except.error (GoError.invalidDuration orig) else
                if !decide ((c :: t).length ≠ s1.length) && !fr.2.2.2 then
                  Except.error (GoError.invalidDuration orig) else
                if (spanUnit fr.2.2.1).1 = [] then Except.error (GoError.missingUnit orig) else
                match unitMap (spanUnit fr.2.2.1).1 with
                | none => Except.error (GoError.unknownUnit (spanUnit fr.2.2.1).1 orig)
                | some unit =>
                  if v > 2 ^ 63 / unit then Except.error (GoError.invalidDuration orig) else
                  if fr.1 > 0 ∧ (if fr.1 > 0 then
                      (v * unit + rt2.fracNanos fr.1 fr.2.1 unit) % 2 ^ 64 else v * unit) > 2 ^ 63
                  then Except.error (GoError.invalidDuration orig) else
                  if (d + (if fr.1 > 0 then
                      (v * unit + rt2.fracNanos fr.1 fr.2.1 unit) % 2 ^ 64 else v * unit)) % 2 ^ 64
                      > 2 ^ 63
                  then Except.error (GoError.invalidDuration orig) else
                  durationLoop rt2 orig n (spanUnit fr.2.2.1).2
                    ((d + (if fr.1 > 0 then
                      (v * unit + rt2.fracNanos fr.1 fr.2.1 unit) % 2 ^ 64 else v * unit)) % 2 ^ 64)) := by
          intro fr hfr
          subst hfr
          simp only [gt_iff_lt, Nat.lt_irrefl, false_and, if_false]
          split
          · rfl
          all_goals (repeat' split)
          all_goals first | rfl | exact ih _ _ (fun h => hs1 (spanUnit_subset _ _ h))
        refine key _ ?_
        split
        · exact absurd (List.mem_cons_self _ _) hs1
        · rfl

/-- On a string without a period `time.ParseDuration` gives the same under
every runtime. -/
theorem ParseDuration_no_fraction (rt rt2 : Runtime) (s : GoString) (hs : 0x2E ∉ s) :
    ParseDuration rt s = ParseDuration rt2 s := by
  have htail : 0x2E ∉ s.tail := fun h => hs (List.mem_of_mem_tail h)
  have h1 : 0x2E ∉ (if s.head? = some 0x2D ∨ s.head? = some 0x2B then s.tail else s) := by
    split_ifs
    · exact htail
    · exact hs
  unfold ParseDuration
  simp only []
  rw [durationLoop_no_fraction rt rt2 s _ _ 0 h1]

/-- The string `1h30m` parses to ninety minutes, in nanoseconds. -/
theorem ParseDuration_1h30m (rt : Runtime) :
    ParseDuration rt (str "1h30m") = .ok 5400000000000 := by
  rw [ParseDuration_no_fraction rt demoRuntime _ (by decide)]
  decide

/-- The string `notaduration` does not parse. -/
theorem ParseDuration_notaduration (rt : Runtime) :
    ParseDuration rt (str "notaduration") = .error (.invalidDuration (str "notaduration")) := by
  rw [ParseDuration_no_fraction rt demoRuntime _ (by decide)]
  decide

/-- C12: with `r` the raw value returned by `get` and `d` the default,
`GetDuration` is `time.ParseDuration` of `d` if `r` is empty and of `r`
otherwise: it panics exactly when that parse fails, with its error, and returns
the parsed duration when it succeeds; the raw value `1h30m` gives ninety
minutes, and `notaduration` panics whatever the default is.  The loop of the
parser gives the same result for any number of rounds from the length of its
input on. -/
theorem GetDuration_parses_after_default (rt : Runtime) (fe : FlagEnv) (name r d : GoString)
    (hget : fe.get rt name = .ok (r, d)) :
    fe.GetDuration rt name = ParseDuration rt (if r = [] then d else r) ∧
      ((∃ e, fe.GetDuration rt name = .error e) ↔
        ∃ e, ParseDuration rt (if r = [] then d else r) = .error e) ∧
      (∀ dur, ParseDuration rt (if r = [] then d else r) = .ok dur →
        fe.GetDuration rt name = .ok dur) ∧
      (r = str "1h30m" → fe.GetDuration rt name = .ok (90 * 60 * 1000000000)) ∧
      (r = str "notaduration" →
        fe.GetDuration rt name = .error (.invalidDuration (str "notaduration"))) ∧
      ∀ (s : GoString) (n : Nat), s.length ≤ n →
        durationLoop rt s n s 0 = durationLoop rt s s.length s 0 := by
  have h : fe.GetDuration rt name = ParseDuration rt (if r = [] then d else r) := by
    simp only [FlagEnv.GetDuration, hget]
  refine ⟨h, by rw [h], fun dur hd => by rw [h, hd], ?_, ?_, ?_⟩
  · intro hr
    have hne : r ≠ [] := by rw [hr]; decide
    rw [h, if_neg hne, hr, ParseDuration_1h30m]
    rfl
  · intro hr
    have hne : r ≠ [] := by rw [hr]; decide
    rw [h, if_neg hne, hr, ParseDuration_notaduration]
  · intro s n hn
    exact durationLoop_rounds rt s n s.length s 0 hn (Nat.le_refl _)

/-- In the example with `API_TIMEOUT=1h30m` the flag `timeout` (default `30s`)
is ninety minutes, and with `API_TIMEOUT=notaduration` `GetDuration` panics
although the default parses. -/
theorem GetDuration_parses_after_default_witness :
    demoFlagEnv.GetDuration (demoRuntimeWith (str "API_TIMEOUT") (str "1h30m")) (str "timeout")
        = .ok 5400000000000 ∧
      demoFlagEnv.GetDuration (demoRuntimeWith (str "API_TIMEOUT") (str "notaduration"))
        (str "timeout") = .error (.invalidDuration (str "notaduration")) ∧
      ParseDuration demoRuntime (str "30s") = .ok 30000000000 :=
  ⟨(GetDuration_parses_after_default (demoRuntimeWith (str "API_TIMEOUT") (str "1h30m"))
      demoFlagEnv (str "timeout") (str "1h30m") (str "30s") (by decide)).2.2.2.1 rfl,
    (GetDuration_parses_after_default (demoRuntimeWith (str "API_TIMEOUT") (str "notaduration"))
      demoFlagEnv (str "timeout") (str "notaduration") (str "30s") (by decide)).2.2.2.2.1 rfl,
    by decide⟩

/-- C15: for a registered flag, `GetString` returns some `s`, `GetBool` returns
whether `s` is `true`, and `GetDuration` is `time.ParseDuration` of `s`: the
same duration when the parse succeeds, its error as the panic when it
fails. -/
theorem typed_accessors_factor (rt : Runtime) (fe : FlagEnv) (name : GoString) (flag : Flag)
    (hreg : fe.flagset.Lookup name = .ok (some flag)) :
    ∃ s, fe.GetString rt name = .ok s ∧
      fe.GetBool rt name = .ok (s == str "true") ∧
      fe.GetDuration rt name = ParseDuration rt s ∧
      ((∃ e, fe.GetDuration rt name = .error e) ↔ ∃ e, ParseDuration rt s = .error e) := by
  obtain ⟨v, hv⟩ := get_registered rt fe name flag hreg
  by_cases h : v = []
  · refine ⟨flag.DefValue, ?_, ?_, ?_, ?_⟩ <;>
      simp [FlagEnv.GetString, FlagEnv.GetBool, FlagEnv.GetDuration, hv, h]
  · refine ⟨v, ?_, ?_, ?_, ?_⟩ <;>
      simp [FlagEnv.GetString, FlagEnv.GetBool, FlagEnv.GetDuration, hv, h]

/-- In the example `timeout` resolves to `30s`: `GetBool` is `false` and
`GetDuration` is thirty seconds. -/
theorem typed_accessors_factor_witness :
    demoFlagEnv.GetString demoRuntime (str "timeout") = .ok (str "30s") ∧
      demoFlagEnv.GetBool demoRuntime (str "timeout") = .ok false ∧
      demoFlagEnv.GetDuration demoRuntime (str "timeout") = .ok 30000000000 := by
  obtain ⟨s, h1, h2, h3, _⟩ := typed_accessors_factor demoRuntime demoFlagEnv (str "timeout")
    ⟨str "timeout", str "30s", str "30s"⟩ (by decide)
  have hs : demoFlagEnv.GetString demoRuntime (str "timeout") = .ok (str "30s") := by decide
  have : s = str "30s" := by
    rw [h1] at hs
    exact Except.ok.inj hs
  subst this
  refine ⟨h1, ?_, ?_⟩
  · rw [h2]; decide
  · rw [h3]; decide

/-- C16: if `GetString` returns the empty string for a registered flag, the
declared default is empty; and a flag set to the empty string, with the
variable `envPrefix + upper(name)` and the `_FILE` variable both empty, is
returned as its default. -/
theorem empty_never_masks_default (rt : Runtime) (fe : FlagEnv) (name : GoString) (flag : Flag)
    (hreg : fe.flagset.Lookup name = .ok (some flag)) :
    (fe.GetString rt name = .ok [] → flag.DefValue = []) ∧
      (flag.Value = [] → rt.Getenv (fe.asEnvKey rt name) = [] →
        rt.Getenv (fe.asEnvFileKey rt name) = [] →
        fe.GetString rt name = .ok flag.DefValue) := by
  obtain ⟨v, hv⟩ := get_registered rt fe name flag hreg
  constructor
  · intro h
    by_cases hve : v = []
    · simpa [FlagEnv.GetString, hv, hve] using h
    · simp [FlagEnv.GetString, hv, hve] at h
  · intro hval henv hfile
    have hraw : fe.getEnvFileRaw rt name = [] := by
      simp [FlagEnv.getEnvFileRaw, henv, hfile]
    simp [FlagEnv.GetString, FlagEnv.get, hreg, hval, hraw]

/-- With `API_NAME` cleared in the example, the flag `name`, set to the empty
string on the command line, is returned as its default `x`. -/
theorem empty_never_masks_default_witness :
    demoFlagEnv.GetString (demoRuntimeWith (str "API_NAME") []) (str "name") = .ok (str "x") :=
  (empty_never_masks_default (demoRuntimeWith (str "API_NAME") []) demoFlagEnv (str "name")
    ⟨str "name", [], str "x"⟩ (by decide)).2 (by decide) (by decide) (by decide)

/-! ## The stored prefix is never empty -/

/-- The prefix stored for the empty string is the separator alone. -/
theorem SetEnvPrefix_empty (rt : Runtime) (fe : FlagEnv) :
    (fe.SetEnvPrefix rt []).envPrefix = [0x5F] := by
  have h1 : (if HasSuffix [] (str "_") = true then ([] : GoString) else [] ++ str "_")
      = [0x5F] := by decide
  rw [SetEnvPrefix_envPrefix, h1, ToUpper_of_ascii _ _ (by decide)]
  decide

/-- C17: for every `p` the prefix stored by `SetEnvPrefix(p)` is non-empty and
ends with `_`; `SetEnvPrefix("")` stores `_`, after which the environment key
of `N` is `_` followed by `upper(N)`, which is not the key `upper(N)` of a
resolver with the empty prefix, such as the one `New()` returns. -/
theorem SetEnvPrefix_never_empty (rt : Runtime) (fe : FlagEnv) :
    (∀ p : GoString, (fe.SetEnvPrefix rt p).envPrefix ≠ [] ∧
        (fe.SetEnvPrefix rt p).envPrefix.getLast? = some 0x5F ∧
        HasSuffix (fe.SetEnvPrefix rt p).envPrefix (str "_") = true) ∧
      (fe.SetEnvPrefix rt (str "")).envPrefix = str "_" ∧
      (∀ name : GoString,
        (fe.SetEnvPrefix rt (str "")).asEnvKey rt name = str "_" ++ ToUpper rt.caseTable name ∧
        (fe.SetEnvPrefix rt (str "")).asEnvKey rt name ≠ ToUpper rt.caseTable name ∧
        ∃ fe0, New rt [] = .ok fe0 ∧ fe0.asEnvKey rt name = ToUpper rt.caseTable name ∧
          (fe.SetEnvPrefix rt (str "")).asEnvKey rt name ≠ fe0.asEnvKey rt name) := by
  have hs : str "_" = [0x5F] := by decide
  have he : str "" = [] := by decide
  have hempty : (fe.SetEnvPrefix rt (str "")).envPrefix = str "_" := by
    rw [he, hs]; exact SetEnvPrefix_empty rt fe
  have hkey : ∀ name : GoString,
      (fe.SetEnvPrefix rt (str "")).asEnvKey rt name = str "_" ++ ToUpper rt.caseTable name := by
    intro name
    simp only [FlagEnv.asEnvKey, hempty]
  have hne : ∀ name : GoString,
      (fe.SetEnvPrefix rt (str "")).asEnvKey rt name ≠ ToUpper rt.caseTable name := by
    intro name h
    rw [hkey, hs] at h
    have := congrArg List.length h
    simp at this
  refine ⟨?_, hempty, ?_⟩
  · intro p
    obtain ⟨t, ht⟩ := SetEnvPrefix_ends rt fe p
    refine ⟨?_, ?_, ?_⟩
    · rw [ht]; simp
    · rw [ht]; exact List.getLast?_concat _
    · rw [hs]; exact (HasSuffix_iff _ _).mpr ⟨t, ht⟩
  · intro name
    refine ⟨hkey name, hne name, ⟨_, rfl, ?_, ?_⟩⟩
    · simp [FlagEnv.asEnvKey]
    · have : ({ fileSuffix := str "_FILE", flagset := rt.CommandLine, envPrefix := [] }
          : FlagEnv).asEnvKey rt name = ToUpper rt.caseTable name := by
        simp [FlagEnv.asEnvKey]
      rw [this]
      exact hne name

/-- In the example, after `SetEnvPrefix("")` the key of `port` is `_PORT`, while
under the resolver of `New()` it is `PORT`. -/
theorem SetEnvPrefix_never_empty_witness :
    (demoFlagEnv.SetEnvPrefix demoRuntime (str "")).asEnvKey demoRuntime (str "port")
        = str "_PORT" ∧
      ∃ fe0, New demoRuntime [] = .ok fe0 ∧ fe0.asEnvKey demoRuntime (str "port") = str "PORT" := by
  obtain ⟨h1, _, fe0, h3, h4, _⟩ :=
    (SetEnvPrefix_never_empty demoRuntime demoFlagEnv).2.2 (str "port")
  exact ⟨by rw [h1]; decide, fe0, h3, by rw [h4]; decide⟩

/-! ## Blank files -/

/-- A string of cutset bytes is trimmed away entirely by `trimLeftASCII`. -/
theorem trimLeftASCII_all (s cutset : GoString) (h : ∀ b ∈ s, cutset.contains b = true) :
    trimLeftASCII s cutset = [] := by
  induction s with
  | nil => rfl
  | cons c t ih =>
    have hc := h c (List.mem_cons_self _ _)
    simp only [trimLeftASCII, hc, if_true]
    exact ih (fun b hb => h b (List.mem_cons_of_mem _ hb))

/-- A string of spaces, tabs, carriage returns and newlines is trimmed to the
empty string. -/
theorem Trim_all_cutset (data : GoString) (h : ∀ b ∈ data, isCutsetByte b) :
    Trim data (str " \t\r\n") = [] := by
  unfold Trim
  split_ifs with h1
  · rcases h1 with h1 | h1
    · exact h1
    · exact absurd h1 (by decide)
  · have hr : trimRightASCII data (str " \t\r\n") = [] := by
      unfold trimRightASCII
      rw [trimLeftASCII_all, List.reverse_nil]
      intro b hb
      exact (contains_cutset b).mpr (h b (List.mem_reverse.mp hb))
    rw [hr]
    rfl

/-- The value of `readFile` is empty or a trimmed string. -/
theorem readFile_cases (rt : Runtime) (path : GoString) :
    readFile rt path = [] ∨ ∃ data, readFile rt path = Trim data (str " \t\r\n") := by
  unfold readFile
  split
  · exact Or.inl rfl
  · split
    · split
      · exact Or.inl rfl
      · exact Or.inr ⟨_, rfl⟩
    · exact Or.inl rfl

/-- C18: the value `readFile` returns neither starts nor ends with a space,
tab, carriage return or newline; and for a registered flag at its default, with
the variable `envPrefix + upper(name)` empty and the `_FILE` variable naming a
file of positive size whose contents are only such bytes, the raw value is
empty and `GetString` returns the default. -/
theorem whitespace_only_file (rt : Runtime) (path : GoString) :
    (∀ b, (readFile rt path).head? = some b → ¬ isCutsetByte b) ∧
      (∀ b, (readFile rt path).getLast? = some b → ¬ isCutsetByte b) ∧
      ∀ (fe : FlagEnv) (name : GoString) (flag : Flag) (data : GoString) (size : Int),
        fe.flagset.Lookup name = .ok (some flag) → flag.Value = flag.DefValue →
        rt.Getenv (fe.asEnvKey rt name) = [] → rt.Getenv (fe.asEnvFileKey rt name) = path →
        rt.StatSize path = .ok size → 0 < size → rt.ReadFile path = .ok data →
        (∀ b ∈ data, isCutsetByte b) →
        fe.get rt name = .ok ([], flag.DefValue) ∧ fe.GetString rt name = .ok flag.DefValue := by
  refine ⟨?_, ?_, ?_⟩
  · intro b hb
    rcases readFile_cases rt path with h | ⟨data, h⟩
    · rw [h] at hb; simp at hb
    · rw [h] at hb; exact (Trim_spec data).2.1 b hb
  · intro b hb
    rcases readFile_cases rt path with h | ⟨data, h⟩
    · rw [h] at hb; simp at hb
    · rw [h] at hb; exact (Trim_spec data).2.2 b hb
  · intro fe name flag data size hreg hunset henv hfile hstat hsize hread hall
    have hrf : readFile rt path = [] := by
      simp [readFile, hstat, hsize, hread, Trim_all_cutset data hall]
    have hraw : fe.getEnvFileRaw rt name = [] := by
      simp [FlagEnv.getEnvFileRaw, henv, hfile, hrf]
    have hget : fe.get rt name = .ok ([], flag.DefValue) := by
      simp [FlagEnv.get, hreg, hunset, hraw]
    exact ⟨hget, by simp [FlagEnv.GetString, hget]⟩

/-- In the example with the file named by `API_VERBOSE_FILE` holding blanks and
line ends only, the flag `verbose` is returned as its default `false`. -/
theorem whitespace_only_file_witness :
    demoFlagEnv.GetString (demoRuntimeFile (str "/run/secrets/empty") (str " \t\r\n  "))
      (str "verbose") = .ok (str "false") :=
  ((whitespace_only_file (demoRuntimeFile (str "/run/secrets/empty") (str " \t\r\n  "))
      (str "/run/secrets/empty")).2.2 demoFlagEnv (str "verbose")
      ⟨str "verbose", str "false", str "false"⟩ (str " \t\r\n  ") 6
      (by decide) (by decide) (by decide) (by decide) (by decide) (by decide) (by decide)
      (by decide)).2

/-! ## Construction and the setters -/

/-- The loop of `New` over two lists of options one after the other. -/
theorem applyOptions_append (a b : List (Option FlagOption)) (fe : FlagEnv) :
    applyOptions (a ++ b) fe =
      match applyOptions a fe with
      | .error e => .error e
      | .ok fe1 => applyOptions b fe1 := by
  induction a generalizing fe with
  | nil => rfl
  | cons o rest ih =>
    cases o with
    | none => exact ih fe
    | some opt =>
      show applyOptions (some opt :: (rest ++ b)) fe = _
      simp only [applyOptions]
      cases (opt fe).2 with
      | some err => rfl
      | none => exact ih _

/-- The loop of `New` is the construction the specification describes, from any
state and with a failure carried along. -/
theorem applyInOrder_eq (opts : List (Option FlagOption)) (fe : FlagEnv) :
    applyInOrder fe opts = applyOptions opts fe := by
  unfold applyInOrder
  have herr : ∀ (l : List (Option FlagOption)) (e : GoError),
      l.foldl
        (fun acc o =>
          match acc, o with
          | .error e, _ => .error e
          | .ok fe, none => .ok fe
          | .ok fe, some opt =>
            match (opt fe).2 with
            | some err => .error err
            | none => .ok (opt fe).1)
        (.error e : Except GoError FlagEnv) = .error e := by
    intro l e
    induction l with
    | nil => rfl
    | cons o rest ih => exact ih
  induction opts generalizing fe with
  | nil => rfl
  | cons o rest ih =>
    cases o with
    | none => exact ih fe
    | some opt =>
      simp only [List.foldl_cons, applyOptions]
      cases h : (opt fe).2 with
      | some err => exact herr rest err
      | none => exact ih _

/-- A provided option never fails, and changes neither more nor less than its
field. -/
theorem providedOption_apply (rt : Runtime) (o : Option FlagOption) (h : providedOption rt o)
    (rest : List (Option FlagOption)) (fe : FlagEnv) :
    ∃ fe1, applyOptions (o :: rest) fe = applyOptions rest fe1 ∧
      fe1.fileSuffix = fe.fileSuffix := by
  rcases h with rfl | ⟨f, rfl⟩ | ⟨p, rfl⟩
  · exact ⟨fe, rfl, rfl⟩
  · exact ⟨{ fe with flagset := f }, rfl, rfl⟩
  · exact ⟨fe.SetEnvPrefix rt p, rfl, rfl⟩

/-- Provided options never make the loop of `New` fail, and leave `fileSuffix`
alone. -/
theorem applyOptions_provided (rt : Runtime) (opts : List (Option FlagOption)) (fe : FlagEnv)
    (h : ∀ o ∈ opts, providedOption rt o) :
    ∃ fe1, applyOptions opts fe = .ok fe1 ∧ fe1.fileSuffix = fe.fileSuffix := by
  induction opts generalizing fe with
  | nil => exact ⟨fe, rfl, rfl⟩
  | cons o rest ih =>
    obtain ⟨fe1, h1, h2⟩ := providedOption_apply rt o (h o (List.mem_cons_self _ _)) rest fe
    obtain ⟨fe2, h3, h4⟩ := ih fe1 (fun o ho => h o (List.mem_cons_of_mem _ ho))
    exact ⟨fe2, by rw [h1, h3], by rw [h4, h2]⟩

/-- Nil entries change nothing in the loop of `New`. -/
theorem applyOptions_filter (opts : List (Option FlagOption)) (fe : FlagEnv) :
    applyOptions (opts.filter (fun o => o.isSome)) fe = applyOptions opts fe := by
  induction opts generalizing fe with
  | nil => rfl
  | cons o rest ih =>
    cases o with
    | none => exact ih fe
    | some opt =>
      simp only [List.filter_cons, Option.isSome_some, if_true, applyOptions]
      cases (opt fe).2 with
      | some err => rfl
      | none => exact ih _

/-- C19: `New` returns for a list of options what it returns for the list
without its nil entries, and for a list made only of nil, `WithFlagSet` and
`WithPrefix` options it returns a resolver and no error. -/
theorem New_nil_skipped_provided_succeed (rt : Runtime) (opts : List (Option FlagOption)) :
    New rt opts = New rt (opts.filter (fun o => o.isSome)) ∧
      ((∀ o ∈ opts, providedOption rt o) → ∃ fe, New rt opts = .ok fe) := by
  refine ⟨(applyOptions_filter opts _).symm, ?_⟩
  intro h
  obtain ⟨fe, h1, _⟩ := applyOptions_provided rt opts _ h
  exact ⟨fe, h1⟩

/-- In the example `New(nil, WithPrefix("api"), nil, WithFlagSet(f))` returns the
resolver under `API_` bound to `f`, as `New(WithPrefix("api"), WithFlagSet(f))`
does. -/
theorem New_nil_skipped_provided_succeed_witness :
    New demoRuntime [none, some (WithPrefix demoRuntime (str "api")), none,
        some (WithFlagSet demoFlagSet)] = .ok demoFlagEnv ∧
      New demoRuntime [some (WithPrefix demoRuntime (str "api")),
        some (WithFlagSet demoFlagSet)] = .ok demoFlagEnv := by
  have h := (New_nil_skipped_provided_succeed demoRuntime
    [none, some (WithPrefix demoRuntime (str "api")), none, some (WithFlagSet demoFlagSet)]).1
  have h2 : New demoRuntime [some (WithPrefix demoRuntime (str "api")),
      some (WithFlagSet demoFlagSet)] = .ok demoFlagEnv := by decide
  exact ⟨by rw [h]; exact h2, h2⟩


/-- C13: `New()` returns the resolver with `fileSuffix` `_FILE`, the global
registry and the empty prefix; `New` is the application of the options in the
order given to that state; an option appended to a list that succeeds is
applied to the resolver the list gives, so the later of two prefix or two
registry options decides the field; when the options before one succeed and
that one fails, `New` returns its error whatever follows it; and a failure is
never recovered by later options. -/
theorem New_construction (rt : Runtime) :
    New rt [] = .ok { flagset := rt.CommandLine, envPrefix := [], fileSuffix := str "_FILE" } ∧
      (∀ opts, New rt opts
        = applyInOrder { flagset := rt.CommandLine, envPrefix := [], fileSuffix := str "_FILE" }
            opts) ∧
      (∀ opts fe opt, New rt opts = .ok fe → (opt fe).2 = none →
        New rt (opts ++ [some opt]) = .ok (opt fe).1) ∧
      (∀ opts fe p, New rt opts = .ok fe →
        New rt (opts ++ [some (WithPrefix rt p)]) = .ok (fe.SetEnvPrefix rt p)) ∧
      (∀ opts fe f, New rt opts = .ok fe →
        New rt (opts ++ [some (WithFlagSet f)]) = .ok { fe with flagset := f }) ∧
      (∀ pre post fe opt err, New rt pre = .ok fe → (opt fe).2 = some err →
        New rt (pre ++ some opt :: post) = .error err) ∧
      (∀ pre post err, New rt pre = .error err → New rt (pre ++ post) = .error err) := by
  have happ : ∀ (opts : List (Option FlagOption)) (fe : FlagEnv) (opt : FlagOption),
      New rt opts = .ok fe → (opt fe).2 = none →
      New rt (opts ++ [some opt]) = .ok (opt fe).1 := by
    intro opts fe opt h hn
    unfold New at h ⊢
    rw [applyOptions_append, h]
    simp only [applyOptions, hn]
  refine ⟨rfl, ?_, happ, ?_, ?_, ?_, ?_⟩
  · intro opts
    exact (applyInOrder_eq opts _).symm
  · intro opts fe p h
    exact happ opts fe (WithPrefix rt p) h rfl
  · intro opts fe f h
    exact happ opts fe (WithFlagSet f) h rfl
  · intro pre post fe opt err h he
    unfold New at h ⊢
    rw [applyOptions_append, h]
    simp only [applyOptions, he]
  · intro pre post err h
    unfold New at h ⊢
    rw [applyOptions_append, h]

/-- In the example the later of two prefix options decides the prefix, and an
option that fails between two others makes `New` return its error. -/
theorem New_construction_witness :
    New demoRuntime [some (WithPrefix demoRuntime (str "web")),
        some (WithFlagSet demoFlagSet), some (WithPrefix demoRuntime (str "api"))]
        = .ok demoFlagEnv ∧
      New demoRuntime [some (WithPrefix demoRuntime (str "api")),
        some (fun fe => (fe, some (GoError.other 7))), some (WithFlagSet demoFlagSet)]
        = .error (.other 7) := by
  have h := New_construction demoRuntime
  refine ⟨?_, ?_⟩
  · have h1 : New demoRuntime [some (WithPrefix demoRuntime (str "web")),
        some (WithFlagSet demoFlagSet)]
        = .ok ({ flagset := demoFlagSet, envPrefix := str "WEB_", fileSuffix := str "_FILE" }
          : FlagEnv) := by decide
    have h2 := h.2.2.2.1 _ _ (str "api") h1
    have h3 : (({ flagset := demoFlagSet, envPrefix := str "WEB_", fileSuffix := str "_FILE" }
        : FlagEnv).SetEnvPrefix demoRuntime (str "api")) = demoFlagEnv := by decide
    rw [h3] at h2
    exact h2
  · have h1 : New demoRuntime [some (WithPrefix demoRuntime (str "api"))]
        = .ok ({ flagset := demoFlagSet, envPrefix := str "API_", fileSuffix := str "_FILE" }
          : FlagEnv) := by decide
    exact h.2.2.2.2.2.1 [some (WithPrefix demoRuntime (str "api"))]
      [some (WithFlagSet demoFlagSet)] _ (fun fe => (fe, some (GoError.other 7)))
      (.other 7) h1 rfl

/-- Every call on a resolver leaves `fileSuffix` as it was. -/
theorem Operation_after_fileSuffix (rt : Runtime) (op : Operation) (fe : FlagEnv) :
    (op.after rt fe).fileSuffix = fe.fileSuffix := by
  cases op <;> rfl

/-- A sequence of calls on a resolver leaves `fileSuffix` as it was. -/
theorem Operations_after_fileSuffix (rt : Runtime) (ops : List Operation) (fe : FlagEnv) :
    (ops.foldl (fun s op => op.after rt s) fe).fileSuffix = fe.fileSuffix := by
  induction ops generalizing fe with
  | nil => rfl
  | cons op rest ih =>
    rw [List.foldl_cons, ih, Operation_after_fileSuffix]

/-- C14: `SetEnvPrefix` changes only `envPrefix`; `BindFlagset` changes only the
registry and returns no error; the four accessors leave the resolver as it
is; so any sequence of these calls and of the provided options leaves
`fileSuffix` as it was, and a resolver that `New` built from provided options
has `fileSuffix` `_FILE` after any such sequence. -/
theorem setters_frame (rt : Runtime) (fe : FlagEnv) :
    (∀ p, (fe.SetEnvPrefix rt p).flagset = fe.flagset ∧
        (fe.SetEnvPrefix rt p).fileSuffix = fe.fileSuffix) ∧
      (∀ f, (fe.BindFlagset f).1.envPrefix = fe.envPrefix ∧
        (fe.BindFlagset f).1.fileSuffix = fe.fileSuffix ∧
        (fe.BindFlagset f).1.flagset = f ∧ (fe.BindFlagset f).2 = none) ∧
      (∀ name, (Operation.get name).after rt fe = fe ∧
        (Operation.getString name).after rt fe = fe ∧
        (Operation.getBool name).after rt fe = fe ∧
        (Operation.getDuration name).after rt fe = fe) ∧
      (∀ ops : List Operation,
        (ops.foldl (fun s op => op.after rt s) fe).fileSuffix = fe.fileSuffix) ∧
      (∀ (opts : List (Option FlagOption)) (ops : List Operation),
        (∀ o ∈ opts, providedOption rt o) →
        ∃ fe1, New rt opts = .ok fe1 ∧
          (ops.foldl (fun s op => op.after rt s) fe1).fileSuffix = str "_FILE") := by
  refine ⟨fun _ => ⟨rfl, rfl⟩, fun _ => ⟨rfl, rfl, rfl, rfl⟩, fun _ => ⟨rfl, rfl, rfl, rfl⟩,
    fun ops => Operations_after_fileSuffix rt ops fe, ?_⟩
  intro opts ops h
  obtain ⟨fe1, h1, h2⟩ := applyOptions_provided rt opts
    { flagset := rt.CommandLine, envPrefix := [], fileSuffix := str "_FILE" } h
  exact ⟨fe1, h1, by rw [Operations_after_fileSuffix, h2]⟩

/-- In the example a resolver from `New(WithPrefix("api"))` still has the suffix
`_FILE` after `SetEnvPrefix("web")`, `GetString("port")`, `BindFlagset` and
`WithPrefix("x")`. -/
theorem setters_frame_witness :
    ∃ fe1, New demoRuntime [some (WithPrefix demoRuntime (str "api"))] = .ok fe1 ∧
      ([Operation.setEnvPrefix (str "web"), Operation.getString (str "port"),
          Operation.bindFlagset (.registry []), Operation.withPrefix (str "x")].foldl
        (fun s op => op.after demoRuntime s) fe1).fileSuffix = str "_FILE" :=
  (setters_frame demoRuntime demoFlagEnv).2.2.2.2
    [some (WithPrefix demoRuntime (str "api"))]
    [Operation.setEnvPrefix (str "web"), Operation.getString (str "port"),
      Operation.bindFlagset (.registry []), Operation.withPrefix (str "x")]
    (by
      intro o ho
      rw [List.mem_singleton] at ho
      exact Or.inr (Or.inr ⟨_, ho⟩))

end FlagEnvFile
